import Mathlib

/-!
Verification of the request-serialization and resource-lifecycle core of
befantasy/weibo-proxy (src/server.js).

The source file contains two revisions of the server, concatenated:
  * the "drain-and-destroy" revision (RequestQueue with a while-loop that
    calls BrowserManager.init before processing and destroys the browser
    when the queue empties), and
  * the "idle-timeout" revision (RequestQueue that processes one task per
    invocation and reschedules itself with setImmediate; BrowserManager
    with idle sweep and auto-save timers).

JavaScript runs these on a single-threaded event loop: code between two
await points executes atomically, and the scheduler interleaves resumed
continuations with externally arriving events (HTTP-driven enqueue calls,
signals, timer callbacks).  The models below are small-step transition
systems over exactly those yield points: a state carries the shared
mutable fields of the two classes plus the set of suspended continuations
("frames", identified by their program counter), and an action either
delivers an external event or resumes one suspended frame, running the
next synchronous segment of the source verbatim.  Fallible external calls
(chromium.launch, browser.newContext, fs reads/writes, operation bodies)
take their outcome from the schedule.
-/

namespace WeiboProxy

/-- A queued task: `id` identifies it (assigned in arrival order), `ok`
is the predetermined outcome of its opaque operation (`true` = the
operation's promise fulfils, `false` = it rejects). -/
structure Task where
  id : Nat
  ok : Bool
deriving DecidableEq

/-- Observable events, recorded in arrival order. -/
inductive Ev where
  /-- `enqueue` appended the task to the queue. -/
  | enq (t : Task)
  /-- the processing loop dequeued the task and invoked its operation. -/
  | started (t : Task)
  /-- the task's caller promise was settled (`ok` = fulfilled). -/
  | settled (id : Nat) (ok : Bool)
  /-- `chromium.launch` was invoked. -/
  | launchStart
  /-- `chromium.launch` resolved. -/
  | launchDone
  /-- `browser.newContext` was invoked. -/
  | ctxStart
  /-- `browser.newContext` resolved. -/
  | ctxDone
  /-- drain policy: the loop found the queue empty and began
  `cleanup(true)`. -/
  | tdStart
  /-- the context `close()` of the drain teardown resolved. -/
  | tdCtxClosed
  /-- the browser `close()` of the drain teardown resolved. -/
  | tdBrClosed
  /-- the drain teardown finished (nothing left to close). -/
  | tdDone
  /-- `process.exit(0)` was reached. -/
  | exited
deriving DecidableEq

/-- Projection used for the trace of enqueued tasks. -/
def Ev.enqT : Ev → Option Task
  | .enq t => some t
  | _ => none

/-- Projection used for the trace of started tasks. -/
def Ev.startT : Ev → Option Task
  | .started t => some t
  | _ => none

/-- Projection used for the trace of settlements. -/
def Ev.settleP : Ev → Option (Nat × Bool)
  | .settled i ok => some (i, ok)
  | _ => none

namespace Drain

/-- Program counters of suspended continuations in the drain-and-destroy
revision.  Each constructor names the await the continuation is parked
on; resuming it runs the following synchronous segment of server.js. -/
inductive PC where
  /-- parked on an `await` inside `processQueue` with the next thing to do
  being the `while (this.queue.length > 0)` check (after `init()`
  returned, or after a task settled and any session save finished). -/
  | loopTop
  /-- `init`: waiter parked on `setTimeout(_, 100)` inside the
  `while (this.isInitializing)` poll loop. -/
  | initPoll
  /-- `init`: parked on `chromium.launch(...)`. -/
  | launchPending
  /-- `createContext`: parked on `loadSession()`. -/
  | loadPending
  /-- `createContext`: parked on `browser.newContext(...)`. -/
  | newCtxPending
  /-- `init` catch: parked on `context.close()` inside `cleanup(true)`. -/
  | initCleanCtxPending
  /-- `init` catch: parked on `browser.close()` inside `cleanup(true)`. -/
  | initCleanBrPending
  /-- parked on `task.operation()` for task `t`. -/
  | opPending (t : Task)
  /-- parked on `saveSessionNow()` in the per-task `finally`. -/
  | savePending
  /-- queue `finally`: parked on `context.close()` of `cleanup(true)`. -/
  | finCleanCtxPending
  /-- queue `finally`: parked on `browser.close()` of `cleanup(true)`. -/
  | finCleanBrPending
  /-- `gracefulShutdown`: parked on the flat `setTimeout(_, 3000)`. -/
  | shutSleep
  /-- `gracefulShutdown`: parked on `context.close()` of `cleanup(true)`. -/
  | shutCleanCtxPending
  /-- `gracefulShutdown`: parked on `browser.close()` of `cleanup(true)`. -/
  | shutCleanBrPending
  /-- finished continuation. -/
  | done
deriving DecidableEq

/-- Global state of the drain-and-destroy revision: the shared fields of
`RequestQueue` and `BrowserManager`, the session file, the suspended
continuations and the observable trace. -/
structure St where
  queue : List Task
  processing : Bool
  currentOp : Option Nat
  browser : Bool
  context : Bool
  isInitializing : Bool
  isLoggedIn : Bool
  storeHas : Bool
  nextId : Nat
  frames : List PC
  events : List Ev
  exited : Bool
deriving DecidableEq

/-- Initial state; `store` says whether data/session.json exists at boot. -/
def st0 (store : Bool) : St :=
  { queue := [], processing := false, currentOp := none,
    browser := false, context := false, isInitializing := false,
    isLoggedIn := false, storeHas := store, nextId := 0,
    frames := [], events := [], exited := false }

/-- The synchronous head of `processQueue` (lines 226-233): the
`processing` guard, the empty-queue guard, setting `processing`, and the
synchronous part of the `browserManager.init()` call up to its first
await.  Returns the new state; a spawned frame is the suspended
remainder of this `processQueue` invocation. -/
def procEntry (s : St) : St :=
  if s.processing then s
  else if s.queue = [] then s
  else
    let s := { s with processing := true }
    if s.browser && s.context then
      { s with frames := PC.loopTop :: s.frames }
    else if s.isInitializing then
      { s with frames := PC.initPoll :: s.frames }
    else
      { s with isInitializing := true,
               events := s.events ++ [Ev.launchStart],
               frames := PC.launchPending :: s.frames }

/-- `enqueue` (lines 211-223): push the task, then call `processQueue()`
synchronously. -/
def stepEnq (s : St) (ok : Bool) : St :=
  let t : Task := ⟨s.nextId, ok⟩
  procEntry
    { s with nextId := s.nextId + 1,
             queue := s.queue ++ [t],
             events := s.events ++ [Ev.enq t] }

/-- Tail of the init-failure path: init's `finally` clears
`isInitializing`, the thrown error lands in `processQueue`'s outer catch
(line 254, which only logs), and its `finally` clears `currentOperation`
and `processing` and, when the queue is empty, starts `cleanup(true)`.
The continuation left suspended by this segment is consed onto
`frames`. -/
def abortTail (s : St) : St :=
  let s := { s with isInitializing := false, processing := false,
                    currentOp := none }
  if s.queue = [] then
    if s.context then
      { s with events := s.events ++ [Ev.tdStart],
               frames := PC.finCleanCtxPending :: s.frames }
    else if s.browser then
      { s with events := s.events ++ [Ev.tdStart],
               frames := PC.finCleanBrPending :: s.frames }
    else { s with frames := PC.done :: s.frames }
  else { s with frames := PC.done :: s.frames }

/-- `init`'s catch block (lines 123-126): `await this.cleanup(true)` then
rethrow.  `cleanup` closes whatever of context/browser exists; if nothing
is open it finishes synchronously and the failure tail runs at once. -/
def initCatch (s : St) : St :=
  if s.context then { s with frames := PC.initCleanCtxPending :: s.frames }
  else if s.browser then { s with frames := PC.initCleanBrPending :: s.frames }
  else abortTail s

/-- Synchronous part of `gracefulShutdown`'s `cleanup(true)` followed by
`process.exit(0)` when nothing is open. -/
def shutClean (s : St) : St :=
  if s.context then { s with frames := PC.shutCleanCtxPending :: s.frames }
  else if s.browser then { s with frames := PC.shutCleanBrPending :: s.frames }
  else { s with exited := true, events := s.events ++ [Ev.exited],
                frames := PC.done :: s.frames }

/-- Resuming the continuation parked at `pc` (which has already been
removed from `s.frames`): runs the next synchronous segment of
server.js.  `ok` is the outcome of the awaited external call where one
is fallible (launch, newContext, session read, session write); the
operation of task `t` instead uses its predetermined `t.ok`.  The
continuation this segment leaves suspended is consed onto `frames`. -/
def frameStep (s : St) (pc : PC) (ok : Bool) : St :=
  match pc with
  | PC.loopTop =>
    match s.queue with
    | t :: rest =>
      { s with queue := rest, currentOp := some t.id,
               events := s.events ++ [Ev.started t],
               frames := PC.opPending t :: s.frames }
    | [] =>
      let s := { s with currentOp := none, processing := false }
      if s.context then
        { s with events := s.events ++ [Ev.tdStart],
                 frames := PC.finCleanCtxPending :: s.frames }
      else if s.browser then
        { s with events := s.events ++ [Ev.tdStart],
                 frames := PC.finCleanBrPending :: s.frames }
      else { s with frames := PC.done :: s.frames }
  | PC.initPoll =>
    if s.browser then { s with frames := PC.loopTop :: s.frames }
    else if s.isInitializing then { s with frames := PC.initPoll :: s.frames }
    else
      { s with isInitializing := true,
               events := s.events ++ [Ev.launchStart],
               frames := PC.launchPending :: s.frames }
  | PC.launchPending =>
    if ok then
      { s with browser := true, events := s.events ++ [Ev.launchDone],
               frames := PC.loadPending :: s.frames }
    else initCatch s
  | PC.loadPending =>
    let s := if s.storeHas && ok then { s with isLoggedIn := true } else s
    { s with events := s.events ++ [Ev.ctxStart],
             frames := PC.newCtxPending :: s.frames }
  | PC.newCtxPending =>
    if ok then
      { s with context := true, isInitializing := false,
               events := s.events ++ [Ev.ctxDone],
               frames := PC.loopTop :: s.frames }
    else initCatch s
  | PC.initCleanCtxPending =>
    let s := { s with context := false }
    if s.browser then { s with frames := PC.initCleanBrPending :: s.frames }
    else abortTail s
  | PC.initCleanBrPending => abortTail { s with browser := false }
  | PC.opPending t =>
    let s := { s with events := s.events ++ [Ev.settled t.id t.ok] }
    if s.isLoggedIn then { s with frames := PC.savePending :: s.frames }
    else { s with frames := PC.loopTop :: s.frames }
  | PC.savePending =>
    let s := if s.context && s.browser && ok then { s with storeHas := true } else s
    { s with frames := PC.loopTop :: s.frames }
  | PC.finCleanCtxPending =>
    let s := { s with context := false, events := s.events ++ [Ev.tdCtxClosed] }
    if s.browser then { s with frames := PC.finCleanBrPending :: s.frames }
    else { s with events := s.events ++ [Ev.tdDone],
                  frames := PC.done :: s.frames }
  | PC.finCleanBrPending =>
    { s with browser := false,
             events := s.events ++ [Ev.tdBrClosed, Ev.tdDone],
             frames := PC.done :: s.frames }
  | PC.shutSleep => shutClean s
  | PC.shutCleanCtxPending =>
    let s := { s with context := false }
    if s.browser then { s with frames := PC.shutCleanBrPending :: s.frames }
    else { s with exited := true, events := s.events ++ [Ev.exited],
                  frames := PC.done :: s.frames }
  | PC.shutCleanBrPending =>
    { s with browser := false, exited := true,
             events := s.events ++ [Ev.exited],
             frames := PC.done :: s.frames }
  | PC.done => { s with frames := PC.done :: s.frames }

/-- Scheduler actions: an externally arriving `enqueue`, a SIGINT/SIGTERM
delivery, or resuming one suspended continuation (chosen by its program
counter; continuations parked at the same pc are interchangeable). -/
inductive Act where
  | enq (ok : Bool)
  | signal
  | step (pc : PC) (ok : Bool)
deriving DecidableEq

/-- `gracefulShutdown` (lines 484-494): if a task is processing, sleep a
flat 3000 ms, then `cleanup(true)` and `process.exit(0)`. -/
def stepSig (s : St) : St :=
  if s.processing then { s with frames := PC.shutSleep :: s.frames }
  else shutClean s

/-- One scheduler step.  After `process.exit` the state is frozen. -/
def stepD (s : St) (a : Act) : St :=
  if s.exited then s
  else
    match a with
    | .enq ok => stepEnq s ok
    | .signal => stepSig s
    | .step pc ok =>
      if pc ∈ s.frames then
        frameStep { s with frames := s.frames.erase pc } pc ok
      else s

/-- Execution of a schedule from the initial state. -/
def runD (store : Bool) (acts : List Act) : St :=
  acts.foldl stepD (st0 store)

/-- Tasks enqueued so far, in arrival order. -/
def St.enqTasks (s : St) : List Task := s.events.filterMap Ev.enqT

/-- Tasks whose operation has been invoked, in start order. -/
def St.startedTasks (s : St) : List Task := s.events.filterMap Ev.startT

/-- (id, outcome) of started tasks, in start order. -/
def St.startedPairs (s : St) : List (Nat × Bool) :=
  s.startedTasks.map (fun t => (t.id, t.ok))

/-- (id, outcome) of settled tasks, in settlement order. -/
def St.settledPairs (s : St) : List (Nat × Bool) := s.events.filterMap Ev.settleP

/-- `getStatus` (lines 268-274): read the three queue fields. -/
def getStatus (s : St) : Nat × Bool × Option Nat :=
  (s.queue.length, s.processing, s.currentOp)

/-- A schedule exhibiting the drain-teardown race: one task runs and the
queue drains, the teardown closes the context and is parked on
`browser.close()`, and then a new `enqueue` arrives: its `processQueue`
run passes the guard (processing was already reset), finds
`browser && context` false and `isInitializing` false, and starts a
second `chromium.launch` while the old teardown is still pending. -/
def raceSched : List Act :=
  [Act.enq true,
   Act.step PC.launchPending true, Act.step PC.loadPending true,
   Act.step PC.newCtxPending true, Act.step PC.loopTop true,
   Act.step (PC.opPending ⟨0, true⟩) true, Act.step PC.loopTop true,
   Act.step PC.finCleanCtxPending true,
   Act.enq true]

/-- A schedule for shutdown with one task mid-flight and three queued:
four tasks are enqueued, the first is dequeued and its operation is in
flight when SIGTERM arrives; a fifth `enqueue` is still accepted during
the grace sleep; the 3 s sleep elapses before the operation finishes,
`cleanup(true)` runs and `process.exit(0)` fires. -/
def shutdownSched : List Act :=
  [Act.enq true, Act.enq true, Act.enq true, Act.enq true,
   Act.step PC.launchPending true, Act.step PC.loadPending true,
   Act.step PC.newCtxPending true, Act.step PC.loopTop true,
   Act.signal, Act.enq true,
   Act.step PC.shutSleep true, Act.step PC.shutCleanCtxPending true,
   Act.step PC.shutCleanBrPending true]

/-- Continuations that are inside the processing section, i.e. belong to
the unique `processQueue` invocation that owns `processing = true`. -/
def isActivePC : PC → Bool
  | PC.loopTop | PC.initPoll | PC.launchPending | PC.loadPending
  | PC.newCtxPending | PC.initCleanCtxPending | PC.initCleanBrPending
  | PC.opPending _ | PC.savePending => true
  | _ => false

/-- Continuations currently executing a task operation body. -/
def isOpPC : PC → Bool
  | PC.opPending _ => true
  | _ => false

/-- Inductive invariant of the drain model.  `act`: the `processing`
flag is owned by exactly one live `processQueue` continuation.  `fifo`:
the started trace followed by the current queue is exactly the enqueue
trace.  `tk1`/`tk2`: the settled trace is the started trace minus the
one operation currently in flight, outcome for outcome.  `cop`: when
`processing` is false, `currentOperation` is `null`. -/
structure WF (s : St) : Prop where
  act : s.frames.countP isActivePC = (if s.processing then 1 else 0)
  fifo : s.startedTasks ++ s.queue = s.enqTasks
  tk1 : ∀ t : Task, PC.opPending t ∈ s.frames →
    s.startedPairs = s.settledPairs ++ [(t.id, t.ok)]
  tk2 : (∀ t : Task, PC.opPending t ∉ s.frames) → s.startedPairs = s.settledPairs
  cop : s.processing = false → s.currentOp = none

end Drain

namespace Idle

/-- Program counters of suspended continuations in the idle-timeout
revision's `RequestQueue` (lines 524-583) and `gracefulShutdown`
(lines 1100-1118). -/
inductive PC where
  /-- a `processQueue()` invocation scheduled by `setImmediate` in the
  `finally` block, not yet run. -/
  | startI
  /-- parked on `task.operation()` for task `t`. -/
  | opPending (t : Task)
  /-- `gracefulShutdown`: parked on `setTimeout(_, 1000)` inside the
  wait-while-processing loop; `n` sleeps remain within the 30 s bound. -/
  | shutPoll (n : Nat)
  /-- `gracefulShutdown`: parked on `context.close()` of `cleanup(true)`. -/
  | shutCleanCtxPending
  /-- `gracefulShutdown`: parked on `browser.close()` of `cleanup(true)`. -/
  | shutCleanBrPending
  /-- finished continuation. -/
  | done
deriving DecidableEq

/-- State of the idle-timeout revision's queue.  The browser fields only
participate in shutdown teardown here; the task operations are opaque
units of work (they drive `BrowserManager` internally, which claims about
this queue do not depend on). -/
structure St where
  queue : List Task
  processing : Bool
  currentOp : Option Nat
  browser : Bool
  context : Bool
  timersOn : Bool
  nextId : Nat
  frames : List PC
  events : List Ev
  exited : Bool
deriving DecidableEq

/-- Initial state, with the browser/context handles in any condition. -/
def st0 (br ctx : Bool) : St :=
  { queue := [], processing := false, currentOp := none,
    browser := br, context := ctx, timersOn := br || ctx, nextId := 0,
    frames := [], events := [], exited := false }

/-- The synchronous head of the idle revision's `processQueue`
(lines 548-558): guard, set `processing`, shift the head task, set
`currentOperation`, and invoke its operation; the suspended remainder
of the invocation is consed onto `frames`. -/
def procEntry (s : St) : St :=
  if s.processing then s
  else
    match s.queue with
    | [] => s
    | t :: rest =>
      { s with processing := true, queue := rest, currentOp := some t.id,
               events := s.events ++ [Ev.started t],
               frames := PC.opPending t :: s.frames }

/-- `enqueue` (lines 531-546): push the task, then call `processQueue()`
synchronously. -/
def stepEnq (s : St) (ok : Bool) : St :=
  let t : Task := ⟨s.nextId, ok⟩
  procEntry
    { s with nextId := s.nextId + 1,
             queue := s.queue ++ [t],
             events := s.events ++ [Ev.enq t] }

/-- Synchronous part of `gracefulShutdown`'s `browserManager.cleanup(true)`
(clear the two timers, then close context and browser) followed by
`process.exit(0)` when nothing is open. -/
def shutClean (s : St) : St :=
  let s := { s with timersOn := false }
  if s.context then { s with frames := PC.shutCleanCtxPending :: s.frames }
  else if s.browser then { s with frames := PC.shutCleanBrPending :: s.frames }
  else { s with exited := true, events := s.events ++ [Ev.exited],
                frames := PC.done :: s.frames }

/-- Resuming the continuation parked at `pc` (already removed from
`s.frames`). -/
def frameStep (s : St) (pc : PC) : St :=
  match pc with
  | PC.startI =>
    if s.processing then { s with frames := PC.done :: s.frames }
    else
      match s.queue with
      | [] => { s with frames := PC.done :: s.frames }
      | t :: rest =>
        { s with processing := true, queue := rest, currentOp := some t.id,
                 events := s.events ++ [Ev.started t],
                 frames := PC.opPending t :: s.frames }
  | PC.opPending t =>
    let s := { s with events := s.events ++ [Ev.settled t.id t.ok],
                      currentOp := none, processing := false }
    if s.queue = [] then { s with frames := PC.done :: s.frames }
    else { s with frames := PC.done :: PC.startI :: s.frames }
  | PC.shutPoll n =>
    if s.processing && decide (0 < n) then
      { s with frames := PC.shutPoll (n - 1) :: s.frames }
    else shutClean s
  | PC.shutCleanCtxPending =>
    let s := { s with context := false }
    if s.browser then { s with frames := PC.shutCleanBrPending :: s.frames }
    else { s with exited := true, events := s.events ++ [Ev.exited],
                  frames := PC.done :: s.frames }
  | PC.shutCleanBrPending =>
    { s with browser := false, exited := true,
             events := s.events ++ [Ev.exited],
             frames := PC.done :: s.frames }
  | PC.done => { s with frames := PC.done :: s.frames }

/-- Scheduler actions for the idle-revision queue. -/
inductive Act where
  | enq (ok : Bool)
  | signal
  | step (pc : PC)
deriving DecidableEq

/-- `gracefulShutdown` (lines 1100-1118): poll `requestQueue.processing`
once a second for at most 30 s, then `cleanup(true)` and exit. -/
def stepSig (s : St) : St :=
  if s.processing then { s with frames := PC.shutPoll 30 :: s.frames }
  else shutClean s

/-- One scheduler step.  After `process.exit` the state is frozen. -/
def stepI (s : St) (a : Act) : St :=
  if s.exited then s
  else
    match a with
    | .enq ok => stepEnq s ok
    | .signal => stepSig s
    | .step pc =>
      if pc ∈ s.frames then
        frameStep { s with frames := s.frames.erase pc } pc
      else s

/-- Execution of a schedule from the initial state. -/
def runI (br ctx : Bool) (acts : List Act) : St :=
  acts.foldl stepI (st0 br ctx)

/-- Tasks enqueued so far, in arrival order. -/
def St.enqTasks (s : St) : List Task := s.events.filterMap Ev.enqT

/-- Tasks whose operation has been invoked, in start order. -/
def St.startedTasks (s : St) : List Task := s.events.filterMap Ev.startT

/-- (id, outcome) of started tasks, in start order. -/
def St.startedPairs (s : St) : List (Nat × Bool) :=
  s.startedTasks.map (fun t => (t.id, t.ok))

/-- (id, outcome) of settled tasks, in settlement order. -/
def St.settledPairs (s : St) : List (Nat × Bool) := s.events.filterMap Ev.settleP

/-- `getStatus` (lines 576-582): read the three queue fields. -/
def getStatus (s : St) : Nat × Bool × Option Nat :=
  (s.queue.length, s.processing, s.currentOp)

/-- Continuations currently executing a task operation body; in this
revision these are the only continuations inside the processing
section. -/
def isOpPC : PC → Bool
  | PC.opPending _ => true
  | _ => false

/-- Inductive invariant of the idle-revision queue model; fields as in
the drain model's invariant. -/
structure WF (s : St) : Prop where
  act : s.frames.countP isOpPC = (if s.processing then 1 else 0)
  fifo : s.startedTasks ++ s.queue = s.enqTasks
  tk1 : ∀ t : Task, PC.opPending t ∈ s.frames →
    s.startedPairs = s.settledPairs ++ [(t.id, t.ok)]
  tk2 : (∀ t : Task, PC.opPending t ∉ s.frames) → s.startedPairs = s.settledPairs
  cop : s.processing = false → s.currentOp = none

end Idle

namespace Sweep

/-- State visible to one firing of the idle-timeout revision's cleanup
sweep (`startCleanupTimer`, lines 672-683): the `BrowserManager` handles,
the activity clock, and `requestQueue.processing`. -/
structure St where
  browser : Bool
  context : Bool
  lastActivity : Nat
  now : Nat
  idleTimeout : Nat
  processing : Bool
deriving DecidableEq

/-- The sweep's guard, checked synchronously when the interval fires:
`idleTime > this.idleTimeout && this.context && !requestQueue.processing`. -/
def fires (s : St) : Bool :=
  decide (s.idleTimeout < s.now - s.lastActivity) && s.context && !s.processing

/-- One firing of the sweep: when the guard passes it runs
`cleanupContext()`, which closes and clears the context and leaves the
browser process alone; otherwise it does nothing. -/
def run (s : St) : St :=
  if fires s then { s with context := false } else s

end Sweep

namespace InitD

/-- Program counter of one caller of the drain revision's
`BrowserManager.init` (lines 88-130).  Terminal states record what the
caller got: `doneRet br ctx` is a normal return with the shared
browser/context fields as observed at return time, `doneErr` is a
propagated exception. -/
inductive CPc where
  | poll
  | launchP
  | loadP
  | newCtxP
  | cleanCtxP
  | cleanBrP
  | doneRet (br ctx : Bool)
  | doneErr
deriving DecidableEq

/-- Creation events of the init model. -/
inductive IEv where
  | launchStart
  | launchDone
  | ctxStart
  | ctxDone
deriving DecidableEq

/-- Shared `BrowserManager` state plus the suspended callers. -/
structure St where
  browser : Bool
  context : Bool
  isInitializing : Bool
  isLoggedIn : Bool
  storeHas : Bool
  callers : List CPc
  events : List IEv
deriving DecidableEq

/-- Uninitialized manager, no callers. -/
def st0 (store : Bool) : St :=
  { browser := false, context := false, isInitializing := false,
    isLoggedIn := false, storeHas := store, callers := [], events := [] }

/-- A new call of `init()`: the synchronous prefix runs at once — the
ready check (line 89), the `isInitializing` check (line 94, parking the
caller on the poll sleep), or claiming `isInitializing` and starting
`chromium.launch`. -/
def call (s : St) : St :=
  if s.browser && s.context then
    { s with callers := CPc.doneRet s.browser s.context :: s.callers }
  else if s.isInitializing then
    { s with callers := CPc.poll :: s.callers }
  else
    { s with isInitializing := true,
             events := s.events ++ [IEv.launchStart],
             callers := CPc.launchP :: s.callers }

/-- The failure tail shared by the creation error paths: `cleanup(true)`
has nothing left to close, init's `finally` clears `isInitializing`, and
the error is rethrown to this caller. -/
def failTail (s : St) : St :=
  { s with isInitializing := false, callers := CPc.doneErr :: s.callers }

/-- init's catch block: `await this.cleanup(true)` then rethrow. -/
def callerCatch (s : St) : St :=
  if s.context then { s with callers := CPc.cleanCtxP :: s.callers }
  else if s.browser then { s with callers := CPc.cleanBrP :: s.callers }
  else failTail s

/-- Resuming the caller parked at `pc` (already removed from
`s.callers`).  `ok` is the outcome of the awaited external call. -/
def callerStep (s : St) (pc : CPc) (ok : Bool) : St :=
  match pc with
  | CPc.poll =>
    if s.browser then
      { s with callers := CPc.doneRet s.browser s.context :: s.callers }
    else if s.isInitializing then { s with callers := CPc.poll :: s.callers }
    else
      { s with isInitializing := true,
               events := s.events ++ [IEv.launchStart],
               callers := CPc.launchP :: s.callers }
  | CPc.launchP =>
    if ok then
      { s with browser := true, events := s.events ++ [IEv.launchDone],
               callers := CPc.loadP :: s.callers }
    else callerCatch s
  | CPc.loadP =>
    let s := if s.storeHas && ok then { s with isLoggedIn := true } else s
    { s with events := s.events ++ [IEv.ctxStart],
             callers := CPc.newCtxP :: s.callers }
  | CPc.newCtxP =>
    if ok then
      { s with context := true, isInitializing := false,
               events := s.events ++ [IEv.ctxDone],
               callers := CPc.doneRet true true :: s.callers }
    else callerCatch s
  | CPc.cleanCtxP =>
    let s := { s with context := false }
    if s.browser then { s with callers := CPc.cleanBrP :: s.callers }
    else failTail s
  | CPc.cleanBrP => failTail { s with browser := false }
  | CPc.doneRet br ctx => { s with callers := CPc.doneRet br ctx :: s.callers }
  | CPc.doneErr => { s with callers := CPc.doneErr :: s.callers }

/-- Scheduler actions: a new concurrent caller arrives, or one suspended
caller resumes. -/
inductive Act where
  | call
  | step (pc : CPc) (ok : Bool)
deriving DecidableEq

/-- One scheduler step. -/
def stepD (s : St) (a : Act) : St :=
  match a with
  | .call => call s
  | .step pc ok =>
    if pc ∈ s.callers then
      callerStep { s with callers := s.callers.erase pc } pc ok
    else s

/-- Execution of a schedule from the uninitialized state. -/
def runInit (store : Bool) (acts : List Act) : St :=
  acts.foldl stepD (st0 store)

/-- Callers currently inside the creation section, i.e. between claiming
`isInitializing` and init's `finally` releasing it. -/
def isCreating : CPc → Bool
  | CPc.launchP | CPc.loadP | CPc.newCtxP | CPc.cleanCtxP | CPc.cleanBrP => true
  | _ => false

/-- Schedule whose external calls all succeed. -/
def okAct : Act → Bool
  | .step _ ok => ok
  | .call => true

/-- Inductive invariant of the multi-caller init model: the
`isInitializing` flag is held by exactly one caller inside the creation
section, and a caller only ever returns normally after observing the
browser field set. -/
structure WF (s : St) : Prop where
  mutex : s.callers.countP isCreating = (if s.isInitializing then 1 else 0)
  ret : ∀ br ctx, CPc.doneRet br ctx ∈ s.callers → br = true

/-- Additional invariant of schedules whose external calls all succeed:
at most one `chromium.launch` happens, a performed launch entails the
creation is still running or fully done, callers past the launch stage
see the browser set, and no caller is in a failure-cleanup stage. -/
def OkWF (s : St) : Prop :=
  s.events.count IEv.launchStart ≤ 1 ∧
  (s.events.count IEv.launchStart = 1 →
    s.isInitializing = true ∨ (s.browser = true ∧ s.context = true)) ∧
  (∀ c ∈ s.callers, c = CPc.loadP ∨ c = CPc.newCtxP → s.browser = true) ∧
  CPc.cleanCtxP ∉ s.callers ∧ CPc.cleanBrP ∉ s.callers

end InitD

namespace InitI

/-- Program counter of one caller of the idle revision's
`BrowserManager.init` (lines 599-657). -/
inductive CPc where
  | poll
  | launchP
  | loadP
  | newCtxP
  | doneRet (br ctx : Bool)
  | doneErr
deriving DecidableEq

/-- Shared state for the idle revision's init. -/
structure St where
  browser : Bool
  context : Bool
  isInitializing : Bool
  timersOn : Bool
  callers : List CPc
  events : List InitD.IEv
deriving DecidableEq

/-- Uninitialized manager, no callers. -/
def st0 : St :=
  { browser := false, context := false, isInitializing := false,
    timersOn := false, callers := [], events := [] }

/-- A new call of `init()`: this revision checks `isInitializing` first
(line 601, parking the caller on the poll sleep), then the ready check
(line 609), then claims `isInitializing` and launches or goes straight
to context creation. -/
def call (s : St) : St :=
  if s.isInitializing then { s with callers := CPc.poll :: s.callers }
  else if s.browser && s.context then
    { s with callers := CPc.doneRet true true :: s.callers }
  else
    let s := { s with isInitializing := true }
    if !s.browser then
      { s with events := s.events ++ [InitD.IEv.launchStart],
               callers := CPc.launchP :: s.callers }
    else
      { s with callers := CPc.loadP :: s.callers }

/-- Resuming the caller parked at `pc` (already removed from
`s.callers`).  There is no catch block in this init: a failed launch or
context creation runs only the `finally` (clearing `isInitializing`) and
propagates to this caller. -/
def callerStep (s : St) (pc : CPc) (ok : Bool) : St :=
  match pc with
  | CPc.poll =>
    if s.isInitializing then { s with callers := CPc.poll :: s.callers }
    else { s with callers := CPc.doneRet s.browser s.context :: s.callers }
  | CPc.launchP =>
    if ok then
      let s := { s with browser := true,
                        events := s.events ++ [InitD.IEv.launchDone] }
      if s.context then
        { s with isInitializing := false, timersOn := true,
                 callers := CPc.doneRet true true :: s.callers }
      else { s with callers := CPc.loadP :: s.callers }
    else { s with isInitializing := false,
                  callers := CPc.doneErr :: s.callers }
  | CPc.loadP =>
    { s with events := s.events ++ [InitD.IEv.ctxStart],
             callers := CPc.newCtxP :: s.callers }
  | CPc.newCtxP =>
    if ok then
      { s with context := true, isInitializing := false, timersOn := true,
               events := s.events ++ [InitD.IEv.ctxDone],
               callers := CPc.doneRet true true :: s.callers }
    else { s with isInitializing := false,
                  callers := CPc.doneErr :: s.callers }
  | CPc.doneRet br ctx =>
    { s with callers := CPc.doneRet br ctx :: s.callers }
  | CPc.doneErr => { s with callers := CPc.doneErr :: s.callers }

/-- Scheduler actions. -/
inductive Act where
  | call
  | step (pc : CPc) (ok : Bool)
deriving DecidableEq

/-- One scheduler step. -/
def stepI (s : St) (a : Act) : St :=
  match a with
  | .call => call s
  | .step pc ok =>
    if pc ∈ s.callers then
      callerStep { s with callers := s.callers.erase pc } pc ok
    else s

/-- Execution of a schedule from the uninitialized state. -/
def runInitI (acts : List Act) : St :=
  acts.foldl stepI st0

end InitI

namespace Persist

/-- The session blob is opaque to the core. -/
def Blob := Nat
deriving instance DecidableEq for Blob

/-- Message classes of errors thrown by the collaborators, as
distinguished by `saveSessionNow`'s catch:
`error.message.includes('closed')`, `...includes('Target')`, or
anything else. -/
inductive JsErr where
  | closedMsg
  | targetMsg
  | otherMsg
deriving DecidableEq

/-- The "already closed" class of errors that `saveSessionNow` ignores
without even logging. -/
def isClosedClass : JsErr → Bool
  | .closedMsg => true
  | .targetMsg => true
  | .otherMsg => false

/-- Whether a collaborator call succeeded. -/
def isOkE {α : Type} : Except JsErr α → Bool
  | .ok _ => true
  | .error _ => false

/-- The `try` body of `loadSession` (lines 299-308) under exception
semantics: `if (await fs.pathExists(SESSION_FILE)) return await
fs.readJson(SESSION_FILE);` then fall through to `return null`. -/
def loadSessionBody (pe : Except JsErr Bool) (rj : Except JsErr Blob) :
    Except JsErr (Option Blob) :=
  match pe with
  | .error e => .error e
  | .ok true =>
    match rj with
    | .error e => .error e
    | .ok b => .ok (some b)
  | .ok false => .ok none

/-- `loadSession` with its catch block: any failure is logged and the
function returns `null`. -/
def loadSession (pe : Except JsErr Bool) (rj : Except JsErr Blob) :
    Except JsErr (Option Blob) :=
  match loadSessionBody pe rj with
  | .ok v => .ok v
  | .error _ => .ok none

/-- The `try` body of the drain revision's `saveSessionNow`
(lines 179-194) under exception semantics, guarded by
`this.context && this.browser && this.browser.isConnected()`. -/
def saveSessionNowBody (hasCtx hasBr connected : Bool)
    (ss : Except JsErr Blob) (wr : Except JsErr Unit) : Except JsErr Bool :=
  if hasCtx && hasBr && connected then
    match ss with
    | .error e => .error e
    | .ok _ =>
      match wr with
      | .error e => .error e
      | .ok _ => .ok true
  else .ok false

/-- `saveSessionNow` with its catch block: a failure is logged only when
its message is outside the closed/Target class, and the function falls
through to `return false`.  Result: (returned value, whether an error
was logged). -/
def saveSessionNow (hasCtx hasBr connected : Bool)
    (ss : Except JsErr Blob) (wr : Except JsErr Unit) : Bool × Bool :=
  match saveSessionNowBody hasCtx hasBr connected ss wr with
  | .ok b => (b, false)
  | .error e => (false, !isClosedClass e)

/-- The drain revision's `createContext` (lines 132-146), given the
result of `loadSession` and the outcome of `browser.newContext`: when a
session blob was loaded it is installed as `storageState` and
`isLoggedIn` is set optimistically, then the context is created.
Returns (context created, resulting `isLoggedIn`). -/
def createContextRun (isLoggedIn : Bool) (sess : Option Blob)
    (nc : Except JsErr Unit) : Except JsErr (Bool × Bool) :=
  let li := if sess.isSome then true else isLoggedIn
  match nc with
  | .ok _ => .ok (true, li)
  | .error e => .error e

end Persist

namespace IdleInit

/-- State touched by a single fresh, successful run of the idle
revision's `BrowserManager.init` (lines 599-657), together with the idle
revision's module-level `isLoggedIn` variable (line 780).
`loadedSession` records whether a persisted blob was installed as
`storageState` of the new context. -/
structure St where
  browser : Bool
  context : Bool
  isLoggedIn : Bool
  storeHas : Bool
  timersOn : Bool
  loadedSession : Bool
deriving DecidableEq

/-- One uncontended, fully successful run of the idle revision's
`init()`: launch the browser if absent, create the context if absent
(installing the persisted session blob when the session file exists),
start the timers.  Nothing in this code path assigns `isLoggedIn`. -/
def run (s : St) : St :=
  if s.browser && s.context then s
  else
    let s := if s.browser then s else { s with browser := true }
    if s.context then { s with timersOn := true }
    else
      { s with context := true, loadedSession := s.storeHas,
               timersOn := true }

end IdleInit

end WeiboProxy


namespace WeiboProxy

theorem countP_erase_mem {α : Type} [DecidableEq α] (p : α → Bool) {x : α} {l : List α}
    (h : x ∈ l) :
    l.countP p = (if p x then 1 else 0) + (l.erase x).countP p := by
  have hp := (List.perm_cons_erase h).countP_eq p
  rw [hp, List.countP_cons]
  omega

theorem countP_le_one_other {α : Type} [DecidableEq α] (p : α → Bool) {x : α} {l : List α}
    (hx : x ∈ l) (hpx : p x = true) (hone : l.countP p ≤ 1) :
    ∀ y ∈ l.erase x, p y = false := by
  intro y hy
  by_contra hcon
  have h1 := countP_erase_mem p hx
  have h2 : 0 < (l.erase x).countP p :=
    List.countP_pos_iff.mpr ⟨y, hy, by simpa using hcon⟩
  rw [hpx] at h1
  simp at h1
  omega

namespace Drain

theorem wf_st0 (store : Bool) : WF (st0 store) := by
  refine ⟨?_, ?_, ?_, ?_, ?_⟩ <;> simp [st0, St.enqTasks, St.startedTasks,
    St.startedPairs, St.settledPairs]

theorem proc_of_active {s : St} (h : WF s) {pc : PC} (hx : pc ∈ s.frames)
    (ha : isActivePC pc = true) : s.processing = true := by
  cases hp : s.processing
  · exfalso
    have hact := h.act
    rw [hp] at hact
    simp at hact
    have := hact pc hx
    simp [ha] at this
  · rfl

theorem erase_no_active {s : St} (h : WF s) {pc : PC} (hx : pc ∈ s.frames)
    (ha : isActivePC pc = true) :
    ∀ y ∈ s.frames.erase pc, isActivePC y = false := by
  have hact := h.act
  have hproc := proc_of_active h hx ha
  rw [hproc] at hact
  simp at hact
  exact countP_le_one_other _ hx ha (by omega)

theorem no_op_frames {s : St} (h : WF s) {pc : PC} (hx : pc ∈ s.frames)
    (ha : isActivePC pc = true) (hne : ∀ t : Task, pc ≠ PC.opPending t) :
    ∀ t : Task, PC.opPending t ∉ s.frames := by
  intro t hmem
  have hyo : PC.opPending t ∈ s.frames.erase pc :=
    (List.mem_erase_of_ne (Ne.symm (hne t))).mpr hmem
  have := erase_no_active h hx ha _ hyo
  simp [isActivePC] at this

theorem no_op_of_zero {l : List PC} (hz : l.countP isActivePC = 0) :
    ∀ t : Task, PC.opPending t ∉ l := by
  intro t hm
  have := List.countP_eq_zero.mp hz _ hm
  simp [isActivePC] at this

theorem erase_zero {s : St} (h : WF s) {pc : PC} (hmem : pc ∈ s.frames)
    (ha : isActivePC pc = true) :
    (s.frames.erase pc).countP isActivePC = 0 := by
  have h1 := countP_erase_mem isActivePC hmem
  have h2 := h.act
  rw [proc_of_active h hmem ha] at h2
  rw [ha] at h1
  simp at h1 h2
  omega

theorem wf_procEntry {s : St} (h : WF s) : WF (procEntry s) := by
  unfold procEntry
  by_cases hp : s.processing
  · simpa [hp] using h
  · simp only [hp, Bool.false_eq_true, if_false]
    by_cases hq : s.queue = []
    · simpa [hq] using h
    · have hz : s.frames.countP isActivePC = 0 := by
        have := h.act
        rw [Bool.eq_false_iff.mpr hp] at this
        simpa using this
      have hnop := no_op_of_zero hz
      simp only [hq, if_false]
      by_cases hbc : s.browser && s.context
      · simp only [hbc, if_true]
        refine ⟨?_, ?_, ?_, ?_, ?_⟩
        · simp [List.countP_cons, isActivePC, hz]
        · simpa [St.enqTasks, St.startedTasks] using h.fifo
        · intro t hm
          simp at hm
          exact absurd hm (hnop t)
        · intro _
          simpa [St.startedPairs, St.startedTasks, St.settledPairs] using h.tk2 hnop
        · intro hpf
          simp at hpf
      · simp only [hbc, Bool.false_eq_true, if_false]
        by_cases hi : s.isInitializing
        · simp only [hi, if_true]
          refine ⟨?_, ?_, ?_, ?_, ?_⟩
          · simp [List.countP_cons, isActivePC, hz]
          · simpa [St.enqTasks, St.startedTasks] using h.fifo
          · intro t hm
            simp at hm
            exact absurd hm (hnop t)
          · intro _
            simpa [St.startedPairs, St.startedTasks, St.settledPairs] using h.tk2 hnop
          · intro hpf
            simp at hpf
        · simp only [hi, Bool.false_eq_true, if_false]
          refine ⟨?_, ?_, ?_, ?_, ?_⟩
          · simp [List.countP_cons, isActivePC, hz]
          · simpa [St.enqTasks, St.startedTasks, List.filterMap_append, Ev.enqT,
              Ev.startT] using h.fifo
          · intro t hm
            simp at hm
            exact absurd hm (hnop t)
          · intro _
            simpa [St.startedPairs, St.startedTasks, St.settledPairs,
              List.filterMap_append, Ev.startT, Ev.settleP] using h.tk2 hnop
          · intro hpf
            simp at hpf

theorem wf_stepEnq {s : St} (h : WF s) (ok : Bool) : WF (stepEnq s ok) := by
  unfold stepEnq
  apply wf_procEntry
  refine ⟨?_, ?_, ?_, ?_, ?_⟩
  · simpa using h.act
  · have := h.fifo
    simp only [St.enqTasks, St.startedTasks, List.filterMap_append, Ev.enqT,
      Ev.startT] at this ⊢
    simp [Ev.enqT, Ev.startT, ← List.append_assoc, this]
  · intro t hm
    have := h.tk1 t (by simpa using hm)
    simpa [St.startedPairs, St.startedTasks, St.settledPairs,
      List.filterMap_append, Ev.startT, Ev.settleP] using this
  · intro hno
    have := h.tk2 (by simpa using hno)
    simpa [St.startedPairs, St.startedTasks, St.settledPairs,
      List.filterMap_append, Ev.startT, Ev.settleP] using this
  · intro hpf
    simpa using h.cop (by simpa using hpf)

theorem wf_active_keep {s s' : St} (h : WF s) {pc : PC} (hmem : pc ∈ s.frames)
    (hact : isActivePC pc = true) (hopold : ∀ t : Task, pc ≠ PC.opPending t)
    (newPc : PC)
    (hanew : isActivePC newPc = true) (hopnew : ∀ t : Task, newPc ≠ PC.opPending t)
    (hfr : s'.frames = newPc :: s.frames.erase pc)
    (hq : s'.queue = s.queue) (hpr : s'.processing = s.processing)
    (henq : s'.enqTasks = s.enqTasks) (hst : s'.startedTasks = s.startedTasks)
    (hse : s'.settledPairs = s.settledPairs) :
    WF s' := by
  have hproc := proc_of_active h hmem hact
  have herz := erase_zero h hmem hact
  have hnops := no_op_frames h hmem hact hopold
  refine ⟨?_, ?_, ?_, ?_, ?_⟩
  · rw [hfr, hpr, hproc, List.countP_cons]
    simp [hanew, herz]
  · rw [hst, hq, henq]
    exact h.fifo
  · intro t hm
    rw [hfr] at hm
    rcases List.mem_cons.mp hm with hm | hm
    · exact absurd hm.symm (hopnew t)
    · have := erase_no_active h hmem hact _ hm
      simp [isActivePC] at this
  · intro _
    simp only [St.startedPairs]
    rw [hst, hse]
    simpa only [St.startedPairs] using h.tk2 hnops
  · intro hpf
    rw [hpr, hproc] at hpf
    cases hpf

theorem wf_abort_keep {s s' : St} (h : WF s) {pc : PC} (hmem : pc ∈ s.frames)
    (hact : isActivePC pc = true) (hopold : ∀ t : Task, pc ≠ PC.opPending t)
    (newPc : PC)
    (hinew : isActivePC newPc = false) (hopnew : ∀ t : Task, newPc ≠ PC.opPending t)
    (hfr : s'.frames = newPc :: s.frames.erase pc)
    (hq : s'.queue = s.queue) (hpr : s'.processing = false) (hco : s'.currentOp = none)
    (henq : s'.enqTasks = s.enqTasks) (hst : s'.startedTasks = s.startedTasks)
    (hse : s'.settledPairs = s.settledPairs) :
    WF s' := by
  have herz := erase_zero h hmem hact
  have hnops := no_op_frames h hmem hact hopold
  refine ⟨?_, ?_, ?_, ?_, ?_⟩
  · rw [hfr, hpr, List.countP_cons]
    simp [hinew, herz]
  · rw [hst, hq, henq]
    exact h.fifo
  · intro t hm
    rw [hfr] at hm
    rcases List.mem_cons.mp hm with hm | hm
    · exact absurd hm.symm (hopnew t)
    · have := erase_no_active h hmem hact _ hm
      simp [isActivePC] at this
  · intro _
    simp only [St.startedPairs]
    rw [hst, hse]
    simpa only [St.startedPairs] using h.tk2 hnops
  · intro _
    exact hco

theorem wf_of_same {s s' : St} (h : WF s) {pc : PC} (hmem : pc ∈ s.frames)
    (hina : isActivePC pc = false) (hopold : ∀ t : Task, pc ≠ PC.opPending t)
    (newPc : PC)
    (hinew : isActivePC newPc = false) (hopnew : ∀ t : Task, newPc ≠ PC.opPending t)
    (hfr : s'.frames = newPc :: s.frames.erase pc)
    (hq : s'.queue = s.queue) (hpr : s'.processing = s.processing)
    (hco : s'.currentOp = s.currentOp)
    (henq : s'.enqTasks = s.enqTasks) (hst : s'.startedTasks = s.startedTasks)
    (hse : s'.settledPairs = s.settledPairs) :
    WF s' := by
  have hcnt := countP_erase_mem isActivePC hmem
  rw [hina] at hcnt
  simp at hcnt
  refine ⟨?_, ?_, ?_, ?_, ?_⟩
  · rw [hfr, hpr, List.countP_cons]
    simp [hinew, ← hcnt, h.act]
  · rw [hst, hq, henq]
    exact h.fifo
  · intro t hm
    rw [hfr] at hm
    rcases List.mem_cons.mp hm with hm | hm
    · exact absurd hm.symm (hopnew t)
    · have hm2 := List.mem_of_mem_erase hm
      simp only [St.startedPairs]
      rw [hst, hse]
      simpa only [St.startedPairs] using h.tk1 t hm2
  · intro hno
    have hnn : ∀ t : Task, PC.opPending t ∉ s.frames := by
      intro t hmem2
      exact hno t (by
        rw [hfr]
        exact List.mem_cons_of_mem _
          ((List.mem_erase_of_ne (Ne.symm (hopold t))).mpr hmem2))
    simp only [St.startedPairs]
    rw [hst, hse]
    simpa only [St.startedPairs] using h.tk2 hnn
  · intro hpf
    rw [hco]
    exact h.cop (hpr ▸ hpf)

theorem wf_spawn_inactive {s s' : St} (h : WF s) (newPc : PC)
    (hinew : isActivePC newPc = false) (hopnew : ∀ t : Task, newPc ≠ PC.opPending t)
    (hfr : s'.frames = newPc :: s.frames)
    (hq : s'.queue = s.queue) (hpr : s'.processing = s.processing)
    (hco : s'.currentOp = s.currentOp)
    (henq : s'.enqTasks = s.enqTasks) (hst : s'.startedTasks = s.startedTasks)
    (hse : s'.settledPairs = s.settledPairs) :
    WF s' := by
  refine ⟨?_, ?_, ?_, ?_, ?_⟩
  · rw [hfr, hpr, List.countP_cons, hinew, h.act]
    simp
  · rw [hst, hq, henq]
    exact h.fifo
  · intro t hm
    rw [hfr] at hm
    rcases List.mem_cons.mp hm with hm | hm
    · exact absurd hm.symm (hopnew t)
    · simp only [St.startedPairs]
      rw [hst, hse]
      simpa only [St.startedPairs] using h.tk1 t hm
  · intro hno
    have hnn : ∀ t : Task, PC.opPending t ∉ s.frames := by
      intro t hmem2
      exact hno t (by rw [hfr]; exact List.mem_cons_of_mem _ hmem2)
    simp only [St.startedPairs]
    rw [hst, hse]
    simpa only [St.startedPairs] using h.tk2 hnn
  · intro hpf
    rw [hco]
    exact h.cop (hpr ▸ hpf)

theorem wf_stepSig {s : St} (h : WF s) : WF (stepSig s) := by
  unfold stepSig shutClean
  by_cases hp : s.processing
  · rw [if_pos hp]
    exact wf_spawn_inactive h PC.shutSleep (by simp [isActivePC])
      (by intro t hco2; cases hco2) rfl rfl rfl rfl rfl rfl rfl
  · rw [if_neg hp]
    by_cases hc : s.context
    · rw [if_pos hc]
      exact wf_spawn_inactive h PC.shutCleanCtxPending (by simp [isActivePC])
        (by intro t hco2; cases hco2) rfl rfl rfl rfl rfl rfl rfl
    · rw [if_neg hc]
      by_cases hb : s.browser
      · rw [if_pos hb]
        exact wf_spawn_inactive h PC.shutCleanBrPending (by simp [isActivePC])
          (by intro t hco2; cases hco2) rfl rfl rfl rfl rfl rfl rfl
      · rw [if_neg hb]
        exact wf_spawn_inactive h PC.done (by simp [isActivePC])
          (by intro t hco2; cases hco2) rfl rfl rfl rfl  (by simp [St.enqTasks, St.startedTasks, St.settledPairs, List.filterMap_append, Ev.enqT, Ev.startT, Ev.settleP]) (by simp [St.enqTasks, St.startedTasks, St.settledPairs, List.filterMap_append, Ev.enqT, Ev.startT, Ev.settleP]) (by simp [St.enqTasks, St.startedTasks, St.settledPairs, List.filterMap_append, Ev.enqT, Ev.startT, Ev.settleP])

theorem wf_step_loopTop {s : St} (h : WF s) (hex : s.exited = false)
    (hmem : PC.loopTop ∈ s.frames) (ok : Bool) :
    WF (stepD s (Act.step PC.loopTop ok)) := by
  have hproc : s.processing = true := proc_of_active h hmem (by simp [isActivePC])
  have herz := erase_zero h hmem (by simp [isActivePC])
  have hnops : ∀ t : Task, PC.opPending t ∉ s.frames :=
    no_op_frames h hmem (by simp [isActivePC]) (by intro t hco; cases hco)
  simp only [stepD, hex, Bool.false_eq_true, if_false]
  rw [if_pos hmem]
  simp only [frameStep]
  cases hq : s.queue with
  | cons t rest =>
    refine ⟨?_, ?_, ?_, ?_, ?_⟩
    · simp [List.countP_cons, isActivePC, herz, hproc]
    · have hf := h.fifo
      rw [hq] at hf
      simpa [St.enqTasks, St.startedTasks, List.filterMap_append, Ev.enqT,
        Ev.startT] using hf
    · intro t' hm
      rcases List.mem_cons.mp hm with hm | hm
      · cases hm
        have h2 := h.tk2 hnops
        simp only [St.startedPairs, St.startedTasks, St.settledPairs,
          List.filterMap_append, List.map_append] at h2 ⊢
        simp [Ev.startT, Ev.settleP, h2]
      · have := erase_no_active h hmem (by simp [isActivePC]) _ hm
        simp [isActivePC] at this
    · intro hno
      exact absurd (List.mem_cons_self _ _) (hno t)
    · intro hpf
      simp [hproc] at hpf
  | nil =>
    by_cases hc : s.context
    · rw [if_pos (by simpa using hc)]
      exact wf_abort_keep h hmem (by simp [isActivePC]) (by intro t hco; cases hco)
        PC.finCleanCtxPending (by simp [isActivePC]) (by intro t hco; cases hco)
        rfl (by simpa using hq.symm) rfl rfl  (by simp [St.enqTasks, St.startedTasks, St.settledPairs, List.filterMap_append, Ev.enqT, Ev.startT, Ev.settleP]) (by simp [St.enqTasks, St.startedTasks, St.settledPairs, List.filterMap_append, Ev.enqT, Ev.startT, Ev.settleP]) (by simp [St.enqTasks, St.startedTasks, St.settledPairs, List.filterMap_append, Ev.enqT, Ev.startT, Ev.settleP])
    · rw [if_neg (by simpa using hc)]
      by_cases hb : s.browser
      · rw [if_pos (by simpa using hb)]
        exact wf_abort_keep h hmem (by simp [isActivePC]) (by intro t hco; cases hco)
          PC.finCleanBrPending (by simp [isActivePC]) (by intro t hco; cases hco)
          rfl (by simpa using hq.symm) rfl rfl  (by simp [St.enqTasks, St.startedTasks, St.settledPairs, List.filterMap_append, Ev.enqT, Ev.startT, Ev.settleP]) (by simp [St.enqTasks, St.startedTasks, St.settledPairs, List.filterMap_append, Ev.enqT, Ev.startT, Ev.settleP]) (by simp [St.enqTasks, St.startedTasks, St.settledPairs, List.filterMap_append, Ev.enqT, Ev.startT, Ev.settleP])
      · rw [if_neg (by simpa using hb)]
        exact wf_abort_keep h hmem (by simp [isActivePC]) (by intro t hco; cases hco)
          PC.done (by simp [isActivePC]) (by intro t hco; cases hco)
          rfl (by simpa using hq.symm) rfl rfl rfl rfl rfl

theorem wf_step_initPoll {s : St} (h : WF s) (hex : s.exited = false)
    (hmem : PC.initPoll ∈ s.frames) (ok : Bool) :
    WF (stepD s (Act.step PC.initPoll ok)) := by
  simp only [stepD, hex, Bool.false_eq_true, if_false]
  rw [if_pos hmem]
  simp only [frameStep]
  by_cases hb : s.browser
  · rw [if_pos hb]
    exact wf_active_keep h hmem (by simp [isActivePC]) (by intro t hco; cases hco)
      PC.loopTop (by simp [isActivePC]) (by intro t hco; cases hco)
      rfl rfl rfl rfl rfl rfl
  · rw [if_neg hb]
    by_cases hi : s.isInitializing
    · rw [if_pos hi]
      exact wf_active_keep h hmem (by simp [isActivePC]) (by intro t hco; cases hco)
        PC.initPoll (by simp [isActivePC]) (by intro t hco; cases hco)
        rfl rfl rfl rfl rfl rfl
    · rw [if_neg hi]
      exact wf_active_keep h hmem (by simp [isActivePC]) (by intro t hco; cases hco)
        PC.launchPending (by simp [isActivePC]) (by intro t hco; cases hco)
        rfl rfl rfl  (by simp [St.enqTasks, St.startedTasks, St.settledPairs, List.filterMap_append, Ev.enqT, Ev.startT, Ev.settleP]) (by simp [St.enqTasks, St.startedTasks, St.settledPairs, List.filterMap_append, Ev.enqT, Ev.startT, Ev.settleP]) (by simp [St.enqTasks, St.startedTasks, St.settledPairs, List.filterMap_append, Ev.enqT, Ev.startT, Ev.settleP])

theorem wf_step_launch {s : St} (h : WF s) (hex : s.exited = false)
    (hmem : PC.launchPending ∈ s.frames) (ok : Bool) :
    WF (stepD s (Act.step PC.launchPending ok)) := by
  simp only [stepD, hex, Bool.false_eq_true, if_false]
  rw [if_pos hmem]
  simp only [frameStep]
  cases ok with
  | true =>
    rw [if_pos rfl]
    exact wf_active_keep h hmem (by simp [isActivePC]) (by intro t hco; cases hco)
      PC.loadPending (by simp [isActivePC]) (by intro t hco; cases hco)
      rfl rfl rfl  (by simp [St.enqTasks, St.startedTasks, St.settledPairs, List.filterMap_append, Ev.enqT, Ev.startT, Ev.settleP]) (by simp [St.enqTasks, St.startedTasks, St.settledPairs, List.filterMap_append, Ev.enqT, Ev.startT, Ev.settleP]) (by simp [St.enqTasks, St.startedTasks, St.settledPairs, List.filterMap_append, Ev.enqT, Ev.startT, Ev.settleP])
  | false =>
    rw [if_neg (by simp)]
    simp only [initCatch]
    by_cases hc : s.context
    · rw [if_pos (by simpa using hc)]
      exact wf_active_keep h hmem (by simp [isActivePC]) (by intro t hco; cases hco)
        PC.initCleanCtxPending (by simp [isActivePC]) (by intro t hco; cases hco)
        rfl rfl rfl rfl rfl rfl
    · rw [if_neg (by simpa using hc)]
      by_cases hb : s.browser
      · rw [if_pos (by simpa using hb)]
        exact wf_active_keep h hmem (by simp [isActivePC]) (by intro t hco; cases hco)
          PC.initCleanBrPending (by simp [isActivePC]) (by intro t hco; cases hco)
          rfl rfl rfl rfl rfl rfl
      · rw [if_neg (by simpa using hb)]
        simp only [abortTail]
        by_cases hq : s.queue = []
        · rw [if_pos (by simpa using hq), if_neg (by simpa using hc),
            if_neg (by simpa using hb)]
          exact wf_abort_keep h hmem (by simp [isActivePC]) (by intro t hco; cases hco)
            PC.done (by simp [isActivePC]) (by intro t hco; cases hco)
            rfl rfl rfl rfl rfl rfl rfl
        · rw [if_neg (by simpa using hq)]
          exact wf_abort_keep h hmem (by simp [isActivePC]) (by intro t hco; cases hco)
            PC.done (by simp [isActivePC]) (by intro t hco; cases hco)
            rfl rfl rfl rfl rfl rfl rfl

theorem wf_step_load {s : St} (h : WF s) (hex : s.exited = false)
    (hmem : PC.loadPending ∈ s.frames) (ok : Bool) :
    WF (stepD s (Act.step PC.loadPending ok)) := by
  simp only [stepD, hex, Bool.false_eq_true, if_false]
  rw [if_pos hmem]
  simp only [frameStep]
  by_cases hso : s.storeHas && ok
  · rw [if_pos hso]
    exact wf_active_keep h hmem (by simp [isActivePC]) (by intro t hco; cases hco)
      PC.newCtxPending (by simp [isActivePC]) (by intro t hco; cases hco)
      rfl rfl rfl  (by simp [St.enqTasks, St.startedTasks, St.settledPairs, List.filterMap_append, Ev.enqT, Ev.startT, Ev.settleP]) (by simp [St.enqTasks, St.startedTasks, St.settledPairs, List.filterMap_append, Ev.enqT, Ev.startT, Ev.settleP]) (by simp [St.enqTasks, St.startedTasks, St.settledPairs, List.filterMap_append, Ev.enqT, Ev.startT, Ev.settleP])
  · rw [if_neg hso]
    exact wf_active_keep h hmem (by simp [isActivePC]) (by intro t hco; cases hco)
      PC.newCtxPending (by simp [isActivePC]) (by intro t hco; cases hco)
      rfl rfl rfl  (by simp [St.enqTasks, St.startedTasks, St.settledPairs, List.filterMap_append, Ev.enqT, Ev.startT, Ev.settleP]) (by simp [St.enqTasks, St.startedTasks, St.settledPairs, List.filterMap_append, Ev.enqT, Ev.startT, Ev.settleP]) (by simp [St.enqTasks, St.startedTasks, St.settledPairs, List.filterMap_append, Ev.enqT, Ev.startT, Ev.settleP])

theorem wf_step_newCtx {s : St} (h : WF s) (hex : s.exited = false)
    (hmem : PC.newCtxPending ∈ s.frames) (ok : Bool) :
    WF (stepD s (Act.step PC.newCtxPending ok)) := by
  simp only [stepD, hex, Bool.false_eq_true, if_false]
  rw [if_pos hmem]
  simp only [frameStep]
  cases ok with
  | true =>
    rw [if_pos rfl]
    exact wf_active_keep h hmem (by simp [isActivePC]) (by intro t hco; cases hco)
      PC.loopTop (by simp [isActivePC]) (by intro t hco; cases hco)
      rfl rfl rfl  (by simp [St.enqTasks, St.startedTasks, St.settledPairs, List.filterMap_append, Ev.enqT, Ev.startT, Ev.settleP]) (by simp [St.enqTasks, St.startedTasks, St.settledPairs, List.filterMap_append, Ev.enqT, Ev.startT, Ev.settleP]) (by simp [St.enqTasks, St.startedTasks, St.settledPairs, List.filterMap_append, Ev.enqT, Ev.startT, Ev.settleP])
  | false =>
    rw [if_neg (by simp)]
    simp only [initCatch]
    by_cases hc : s.context
    · rw [if_pos (by simpa using hc)]
      exact wf_active_keep h hmem (by simp [isActivePC]) (by intro t hco; cases hco)
        PC.initCleanCtxPending (by simp [isActivePC]) (by intro t hco; cases hco)
        rfl rfl rfl rfl rfl rfl
    · rw [if_neg (by simpa using hc)]
      by_cases hb : s.browser
      · rw [if_pos (by simpa using hb)]
        exact wf_active_keep h hmem (by simp [isActivePC]) (by intro t hco; cases hco)
          PC.initCleanBrPending (by simp [isActivePC]) (by intro t hco; cases hco)
          rfl rfl rfl rfl rfl rfl
      · rw [if_neg (by simpa using hb)]
        simp only [abortTail]
        by_cases hq : s.queue = []
        · rw [if_pos (by simpa using hq), if_neg (by simpa using hc),
            if_neg (by simpa using hb)]
          exact wf_abort_keep h hmem (by simp [isActivePC]) (by intro t hco; cases hco)
            PC.done (by simp [isActivePC]) (by intro t hco; cases hco)
            rfl rfl rfl rfl rfl rfl rfl
        · rw [if_neg (by simpa using hq)]
          exact wf_abort_keep h hmem (by simp [isActivePC]) (by intro t hco; cases hco)
            PC.done (by simp [isActivePC]) (by intro t hco; cases hco)
            rfl rfl rfl rfl rfl rfl rfl

theorem wf_step_cleanCtx {s : St} (h : WF s) (hex : s.exited = false)
    (hmem : PC.initCleanCtxPending ∈ s.frames) (ok : Bool) :
    WF (stepD s (Act.step PC.initCleanCtxPending ok)) := by
  simp only [stepD, hex, Bool.false_eq_true, if_false]
  rw [if_pos hmem]
  simp only [frameStep]
  by_cases hb : s.browser
  · rw [if_pos (by simpa using hb)]
    exact wf_active_keep h hmem (by simp [isActivePC]) (by intro t hco; cases hco)
      PC.initCleanBrPending (by simp [isActivePC]) (by intro t hco; cases hco)
      rfl rfl rfl rfl rfl rfl
  · rw [if_neg (by simpa using hb)]
    simp only [abortTail]
    by_cases hq : s.queue = []
    · rw [if_pos (by simpa using hq), if_neg (by simp),
        if_neg (by simpa using hb)]
      exact wf_abort_keep h hmem (by simp [isActivePC]) (by intro t hco; cases hco)
        PC.done (by simp [isActivePC]) (by intro t hco; cases hco)
        rfl rfl rfl rfl rfl rfl rfl
    · rw [if_neg (by simpa using hq)]
      exact wf_abort_keep h hmem (by simp [isActivePC]) (by intro t hco; cases hco)
        PC.done (by simp [isActivePC]) (by intro t hco; cases hco)
        rfl rfl rfl rfl rfl rfl rfl

theorem wf_step_cleanBr {s : St} (h : WF s) (hex : s.exited = false)
    (hmem : PC.initCleanBrPending ∈ s.frames) (ok : Bool) :
    WF (stepD s (Act.step PC.initCleanBrPending ok)) := by
  simp only [stepD, hex, Bool.false_eq_true, if_false]
  rw [if_pos hmem]
  simp only [frameStep, abortTail]
  by_cases hq : s.queue = []
  · rw [if_pos (by simpa using hq)]
    by_cases hc : s.context
    · rw [if_pos (by simpa using hc)]
      exact wf_abort_keep h hmem (by simp [isActivePC]) (by intro t hco; cases hco)
        PC.finCleanCtxPending (by simp [isActivePC]) (by intro t hco; cases hco)
        rfl rfl rfl rfl  (by simp [St.enqTasks, St.startedTasks, St.settledPairs, List.filterMap_append, Ev.enqT, Ev.startT, Ev.settleP]) (by simp [St.enqTasks, St.startedTasks, St.settledPairs, List.filterMap_append, Ev.enqT, Ev.startT, Ev.settleP]) (by simp [St.enqTasks, St.startedTasks, St.settledPairs, List.filterMap_append, Ev.enqT, Ev.startT, Ev.settleP])
    · rw [if_neg (by simpa using hc), if_neg (by simp)]
      exact wf_abort_keep h hmem (by simp [isActivePC]) (by intro t hco; cases hco)
        PC.done (by simp [isActivePC]) (by intro t hco; cases hco)
        rfl rfl rfl rfl rfl rfl rfl
  · rw [if_neg (by simpa using hq)]
    exact wf_abort_keep h hmem (by simp [isActivePC]) (by intro t hco; cases hco)
      PC.done (by simp [isActivePC]) (by intro t hco; cases hco)
      rfl rfl rfl rfl rfl rfl rfl

theorem wf_step_op {s : St} (h : WF s) (hex : s.exited = false) (t : Task)
    (hmem : PC.opPending t ∈ s.frames) (ok : Bool) :
    WF (stepD s (Act.step (PC.opPending t) ok)) := by
  have hproc := proc_of_active h hmem (by simp [isActivePC])
  have herz := erase_zero h hmem (by simp [isActivePC])
  have htk := h.tk1 t hmem
  simp only [stepD, hex, Bool.false_eq_true, if_false]
  rw [if_pos hmem]
  simp only [frameStep]
  by_cases hl : s.isLoggedIn
  · rw [if_pos hl]
    refine ⟨?_, ?_, ?_, ?_, ?_⟩
    · simp [List.countP_cons, isActivePC, herz, hproc]
    · simpa [St.enqTasks, St.startedTasks, List.filterMap_append, Ev.enqT,
        Ev.startT] using h.fifo
    · intro t' hm
      rcases List.mem_cons.mp hm with hm | hm
      · cases hm
      · have := erase_no_active h hmem (by simp [isActivePC]) _ hm
        simp [isActivePC] at this
    · intro _
      simp only [St.startedPairs, St.startedTasks, St.settledPairs,
        List.filterMap_append] at htk ⊢
      simp [Ev.startT, Ev.settleP, htk]
    · intro hpf
      simp [hproc] at hpf
  · rw [if_neg hl]
    refine ⟨?_, ?_, ?_, ?_, ?_⟩
    · simp [List.countP_cons, isActivePC, herz, hproc]
    · simpa [St.enqTasks, St.startedTasks, List.filterMap_append, Ev.enqT,
        Ev.startT] using h.fifo
    · intro t' hm
      rcases List.mem_cons.mp hm with hm | hm
      · cases hm
      · have := erase_no_active h hmem (by simp [isActivePC]) _ hm
        simp [isActivePC] at this
    · intro _
      simp only [St.startedPairs, St.startedTasks, St.settledPairs,
        List.filterMap_append] at htk ⊢
      simp [Ev.startT, Ev.settleP, htk]
    · intro hpf
      simp [hproc] at hpf

theorem wf_step_save {s : St} (h : WF s) (hex : s.exited = false)
    (hmem : PC.savePending ∈ s.frames) (ok : Bool) :
    WF (stepD s (Act.step PC.savePending ok)) := by
  simp only [stepD, hex, Bool.false_eq_true, if_false]
  rw [if_pos hmem]
  simp only [frameStep]
  by_cases hco : s.context && s.browser && ok
  · rw [if_pos hco]
    exact wf_active_keep h hmem (by simp [isActivePC]) (by intro t hco2; cases hco2)
      PC.loopTop (by simp [isActivePC]) (by intro t hco2; cases hco2)
      rfl rfl rfl rfl rfl rfl
  · rw [if_neg hco]
    exact wf_active_keep h hmem (by simp [isActivePC]) (by intro t hco2; cases hco2)
      PC.loopTop (by simp [isActivePC]) (by intro t hco2; cases hco2)
      rfl rfl rfl rfl rfl rfl

theorem wf_step_finCtx {s : St} (h : WF s) (hex : s.exited = false)
    (hmem : PC.finCleanCtxPending ∈ s.frames) (ok : Bool) :
    WF (stepD s (Act.step PC.finCleanCtxPending ok)) := by
  simp only [stepD, hex, Bool.false_eq_true, if_false]
  rw [if_pos hmem]
  simp only [frameStep]
  by_cases hb : s.browser
  · rw [if_pos (by simpa using hb)]
    exact wf_of_same h hmem (by simp [isActivePC]) (by intro t hco; cases hco)
      PC.finCleanBrPending (by simp [isActivePC]) (by intro t hco; cases hco)
      rfl rfl rfl rfl  (by simp [St.enqTasks, St.startedTasks, St.settledPairs, List.filterMap_append, Ev.enqT, Ev.startT, Ev.settleP]) (by simp [St.enqTasks, St.startedTasks, St.settledPairs, List.filterMap_append, Ev.enqT, Ev.startT, Ev.settleP]) (by simp [St.enqTasks, St.startedTasks, St.settledPairs, List.filterMap_append, Ev.enqT, Ev.startT, Ev.settleP])
  · rw [if_neg (by simpa using hb)]
    exact wf_of_same h hmem (by simp [isActivePC]) (by intro t hco; cases hco)
      PC.done (by simp [isActivePC]) (by intro t hco; cases hco)
      rfl rfl rfl rfl  (by simp [St.enqTasks, St.startedTasks, St.settledPairs, List.filterMap_append, Ev.enqT, Ev.startT, Ev.settleP]) (by simp [St.enqTasks, St.startedTasks, St.settledPairs, List.filterMap_append, Ev.enqT, Ev.startT, Ev.settleP]) (by simp [St.enqTasks, St.startedTasks, St.settledPairs, List.filterMap_append, Ev.enqT, Ev.startT, Ev.settleP])

theorem wf_step_finBr {s : St} (h : WF s) (hex : s.exited = false)
    (hmem : PC.finCleanBrPending ∈ s.frames) (ok : Bool) :
    WF (stepD s (Act.step PC.finCleanBrPending ok)) := by
  simp only [stepD, hex, Bool.false_eq_true, if_false]
  rw [if_pos hmem]
  simp only [frameStep]
  exact wf_of_same h hmem (by simp [isActivePC]) (by intro t hco; cases hco)
    PC.done (by simp [isActivePC]) (by intro t hco; cases hco)
    rfl rfl rfl rfl  (by simp [St.enqTasks, St.startedTasks, St.settledPairs, List.filterMap_append, Ev.enqT, Ev.startT, Ev.settleP]) (by simp [St.enqTasks, St.startedTasks, St.settledPairs, List.filterMap_append, Ev.enqT, Ev.startT, Ev.settleP]) (by simp [St.enqTasks, St.startedTasks, St.settledPairs, List.filterMap_append, Ev.enqT, Ev.startT, Ev.settleP])

theorem wf_step_shutSleep {s : St} (h : WF s) (hex : s.exited = false)
    (hmem : PC.shutSleep ∈ s.frames) (ok : Bool) :
    WF (stepD s (Act.step PC.shutSleep ok)) := by
  simp only [stepD, hex, Bool.false_eq_true, if_false]
  rw [if_pos hmem]
  simp only [frameStep, shutClean]
  by_cases hc : s.context
  · rw [if_pos hc]
    exact wf_of_same h hmem (by simp [isActivePC]) (by intro t hco; cases hco)
      PC.shutCleanCtxPending (by simp [isActivePC]) (by intro t hco; cases hco)
      rfl rfl rfl rfl rfl rfl rfl
  · rw [if_neg hc]
    by_cases hb : s.browser
    · rw [if_pos hb]
      exact wf_of_same h hmem (by simp [isActivePC]) (by intro t hco; cases hco)
        PC.shutCleanBrPending (by simp [isActivePC]) (by intro t hco; cases hco)
        rfl rfl rfl rfl rfl rfl rfl
    · rw [if_neg hb]
      exact wf_of_same h hmem (by simp [isActivePC]) (by intro t hco; cases hco)
        PC.done (by simp [isActivePC]) (by intro t hco; cases hco)
        rfl rfl rfl rfl  (by simp [St.enqTasks, St.startedTasks, St.settledPairs, List.filterMap_append, Ev.enqT, Ev.startT, Ev.settleP]) (by simp [St.enqTasks, St.startedTasks, St.settledPairs, List.filterMap_append, Ev.enqT, Ev.startT, Ev.settleP]) (by simp [St.enqTasks, St.startedTasks, St.settledPairs, List.filterMap_append, Ev.enqT, Ev.startT, Ev.settleP])

theorem wf_step_shutCtx {s : St} (h : WF s) (hex : s.exited = false)
    (hmem : PC.shutCleanCtxPending ∈ s.frames) (ok : Bool) :
    WF (stepD s (Act.step PC.shutCleanCtxPending ok)) := by
  simp only [stepD, hex, Bool.false_eq_true, if_false]
  rw [if_pos hmem]
  simp only [frameStep]
  by_cases hb : s.browser
  · rw [if_pos (by simpa using hb)]
    exact wf_of_same h hmem (by simp [isActivePC]) (by intro t hco; cases hco)
      PC.shutCleanBrPending (by simp [isActivePC]) (by intro t hco; cases hco)
      rfl rfl rfl rfl rfl rfl rfl
  · rw [if_neg (by simpa using hb)]
    exact wf_of_same h hmem (by simp [isActivePC]) (by intro t hco; cases hco)
      PC.done (by simp [isActivePC]) (by intro t hco; cases hco)
      rfl rfl rfl rfl  (by simp [St.enqTasks, St.startedTasks, St.settledPairs, List.filterMap_append, Ev.enqT, Ev.startT, Ev.settleP]) (by simp [St.enqTasks, St.startedTasks, St.settledPairs, List.filterMap_append, Ev.enqT, Ev.startT, Ev.settleP]) (by simp [St.enqTasks, St.startedTasks, St.settledPairs, List.filterMap_append, Ev.enqT, Ev.startT, Ev.settleP])

theorem wf_step_shutBr {s : St} (h : WF s) (hex : s.exited = false)
    (hmem : PC.shutCleanBrPending ∈ s.frames) (ok : Bool) :
    WF (stepD s (Act.step PC.shutCleanBrPending ok)) := by
  simp only [stepD, hex, Bool.false_eq_true, if_false]
  rw [if_pos hmem]
  simp only [frameStep]
  exact wf_of_same h hmem (by simp [isActivePC]) (by intro t hco; cases hco)
    PC.done (by simp [isActivePC]) (by intro t hco; cases hco)
    rfl rfl rfl rfl  (by simp [St.enqTasks, St.startedTasks, St.settledPairs, List.filterMap_append, Ev.enqT, Ev.startT, Ev.settleP]) (by simp [St.enqTasks, St.startedTasks, St.settledPairs, List.filterMap_append, Ev.enqT, Ev.startT, Ev.settleP]) (by simp [St.enqTasks, St.startedTasks, St.settledPairs, List.filterMap_append, Ev.enqT, Ev.startT, Ev.settleP])

theorem wf_step_done {s : St} (h : WF s) (hex : s.exited = false)
    (hmem : PC.done ∈ s.frames) (ok : Bool) :
    WF (stepD s (Act.step PC.done ok)) := by
  simp only [stepD, hex, Bool.false_eq_true, if_false]
  rw [if_pos hmem]
  simp only [frameStep]
  exact wf_of_same h hmem (by simp [isActivePC]) (by intro t hco; cases hco)
    PC.done (by simp [isActivePC]) (by intro t hco; cases hco)
    rfl rfl rfl rfl rfl rfl rfl

theorem wf_stepD {s : St} (h : WF s) (a : Act) : WF (stepD s a) := by
  by_cases hex : s.exited
  · simpa [stepD, hex] using h
  · have hx : s.exited = false := by simpa using hex
    cases a with
    | enq ok => simpa [stepD, hx] using wf_stepEnq h ok
    | signal => simpa [stepD, hx] using wf_stepSig h
    | step pc ok =>
      by_cases hmem : pc ∈ s.frames
      · cases pc with
        | loopTop => exact wf_step_loopTop h hx hmem ok
        | initPoll => exact wf_step_initPoll h hx hmem ok
        | launchPending => exact wf_step_launch h hx hmem ok
        | loadPending => exact wf_step_load h hx hmem ok
        | newCtxPending => exact wf_step_newCtx h hx hmem ok
        | initCleanCtxPending => exact wf_step_cleanCtx h hx hmem ok
        | initCleanBrPending => exact wf_step_cleanBr h hx hmem ok
        | opPending t => exact wf_step_op h hx t hmem ok
        | savePending => exact wf_step_save h hx hmem ok
        | finCleanCtxPending => exact wf_step_finCtx h hx hmem ok
        | finCleanBrPending => exact wf_step_finBr h hx hmem ok
        | shutSleep => exact wf_step_shutSleep h hx hmem ok
        | shutCleanCtxPending => exact wf_step_shutCtx h hx hmem ok
        | shutCleanBrPending => exact wf_step_shutBr h hx hmem ok
        | done => exact wf_step_done h hx hmem ok
      · simp only [stepD, hx, Bool.false_eq_true, if_false]
        rw [if_neg hmem]
        exact h

theorem wf_foldl {s : St} (h : WF s) (acts : List Act) : WF (acts.foldl stepD s) := by
  induction acts generalizing s with
  | nil => exact h
  | cons a rest ih => exact ih (wf_stepD h a)

theorem wf_runD (store : Bool) (acts : List Act) : WF (runD store acts) :=
  wf_foldl (wf_st0 store) acts

end Drain

namespace Idle

theorem isOpPC_iff {pc : PC} : isOpPC pc = true ↔ ∃ t : Task, pc = PC.opPending t := by
  cases pc <;> simp [isOpPC]

theorem wf_st0I (br ctx : Bool) : WF (st0 br ctx) := by
  refine ⟨?_, ?_, ?_, ?_, ?_⟩ <;> simp [st0, St.enqTasks, St.startedTasks,
    St.startedPairs, St.settledPairs]

theorem proc_of_activeI {s : St} (h : WF s) {pc : PC} (hx : pc ∈ s.frames)
    (ha : isOpPC pc = true) : s.processing = true := by
  cases hp : s.processing
  · exfalso
    have hact := h.act
    rw [hp] at hact
    simp at hact
    have := hact pc hx
    simp [ha] at this
  · rfl

theorem erase_no_activeI {s : St} (h : WF s) {pc : PC} (hx : pc ∈ s.frames)
    (ha : isOpPC pc = true) :
    ∀ y ∈ s.frames.erase pc, isOpPC y = false := by
  have hact := h.act
  have hproc := proc_of_activeI h hx ha
  rw [hproc] at hact
  simp at hact
  exact countP_le_one_other _ hx ha (by omega)

theorem no_op_of_zeroI {l : List PC} (hz : l.countP isOpPC = 0) :
    ∀ t : Task, PC.opPending t ∉ l := by
  intro t hm
  have := List.countP_eq_zero.mp hz _ hm
  simp [isOpPC] at this

theorem erase_zeroI {s : St} (h : WF s) {pc : PC} (hmem : pc ∈ s.frames)
    (ha : isOpPC pc = true) :
    (s.frames.erase pc).countP isOpPC = 0 := by
  have h1 := countP_erase_mem isOpPC hmem
  have h2 := h.act
  rw [proc_of_activeI h hmem ha] at h2
  rw [ha] at h1
  simp at h1 h2
  omega

theorem countP_zero_of_no_op {l : List PC} (hops : ∀ t : Task, PC.opPending t ∉ l) :
    l.countP isOpPC = 0 := by
  apply List.countP_eq_zero.mpr
  intro x hx
  simp only [Bool.not_eq_true]
  cases hco : isOpPC x
  · rfl
  · obtain ⟨t, rfl⟩ := isOpPC_iff.mp hco
    exact absurd hx (hops t)

theorem wf_consI {s s' : St} (h : WF s) {pc : PC} (ps : List PC)
    (hmem : pc ∈ s.frames)
    (hina : isOpPC pc = false) (hops : ∀ t : Task, PC.opPending t ∉ ps)
    (hfr : s'.frames = ps ++ s.frames.erase pc)
    (hq : s'.queue = s.queue) (hpr : s'.processing = s.processing)
    (hco : s'.currentOp = s.currentOp)
    (henq : s'.enqTasks = s.enqTasks) (hst : s'.startedTasks = s.startedTasks)
    (hse : s'.settledPairs = s.settledPairs) :
    WF s' := by
  have hcnt := countP_erase_mem isOpPC hmem
  rw [hina] at hcnt
  simp at hcnt
  have hpz := countP_zero_of_no_op hops
  refine ⟨?_, ?_, ?_, ?_, ?_⟩
  · rw [hfr, hpr, List.countP_append, hpz, ← hcnt, h.act]
    simp
  · rw [hst, hq, henq]
    exact h.fifo
  · intro t hm
    rw [hfr] at hm
    rcases List.mem_append.mp hm with hm | hm
    · exact absurd hm (hops t)
    · have hm2 := List.mem_of_mem_erase hm
      simp only [St.startedPairs]
      rw [hst, hse]
      simpa only [St.startedPairs] using h.tk1 t hm2
  · intro hno
    have hnn : ∀ t : Task, PC.opPending t ∉ s.frames := by
      intro t hmem2
      refine hno t ?_
      rw [hfr]
      refine List.mem_append_right _ ?_
      refine (List.mem_erase_of_ne ?_).mpr hmem2
      intro hco2
      rw [← hco2] at hina
      simp [isOpPC] at hina
    simp only [St.startedPairs]
    rw [hst, hse]
    simpa only [St.startedPairs] using h.tk2 hnn
  · intro hpf
    rw [hco]
    exact h.cop (hpr ▸ hpf)

theorem wf_spawnI {s s' : St} (h : WF s) (ps : List PC)
    (hops : ∀ t : Task, PC.opPending t ∉ ps)
    (hfr : s'.frames = ps ++ s.frames)
    (hq : s'.queue = s.queue) (hpr : s'.processing = s.processing)
    (hco : s'.currentOp = s.currentOp)
    (henq : s'.enqTasks = s.enqTasks) (hst : s'.startedTasks = s.startedTasks)
    (hse : s'.settledPairs = s.settledPairs) :
    WF s' := by
  have hpz := countP_zero_of_no_op hops
  refine ⟨?_, ?_, ?_, ?_, ?_⟩
  · rw [hfr, hpr, List.countP_append, hpz, h.act]
    simp
  · rw [hst, hq, henq]
    exact h.fifo
  · intro t hm
    rw [hfr] at hm
    rcases List.mem_append.mp hm with hm | hm
    · exact absurd hm (hops t)
    · simp only [St.startedPairs]
      rw [hst, hse]
      simpa only [St.startedPairs] using h.tk1 t hm
  · intro hno
    have hnn : ∀ t : Task, PC.opPending t ∉ s.frames := by
      intro t hmem2
      exact hno t (by rw [hfr]; exact List.mem_append_right _ hmem2)
    simp only [St.startedPairs]
    rw [hst, hse]
    simpa only [St.startedPairs] using h.tk2 hnn
  · intro hpf
    rw [hco]
    exact h.cop (hpr ▸ hpf)

theorem wf_procEntryI {s : St} (h : WF s) : WF (procEntry s) := by
  unfold procEntry
  by_cases hp : s.processing
  · simpa [hp] using h
  · simp only [hp, Bool.false_eq_true, if_false]
    have hz : s.frames.countP isOpPC = 0 := by
      have := h.act
      rw [Bool.eq_false_iff.mpr hp] at this
      simpa using this
    have hnop := no_op_of_zeroI hz
    cases hq : s.queue with
    | nil => exact h
    | cons t rest =>
      refine ⟨?_, ?_, ?_, ?_, ?_⟩
      · simp [List.countP_cons, isOpPC, hz]
      · have hf := h.fifo
        rw [hq] at hf
        simpa [St.enqTasks, St.startedTasks, List.filterMap_append, Ev.enqT,
          Ev.startT] using hf
      · intro t' hm
        rcases List.mem_cons.mp hm with hm | hm
        · cases hm
          have h2 := h.tk2 hnop
          simp only [St.startedPairs, St.startedTasks, St.settledPairs,
            List.filterMap_append, List.map_append] at h2 ⊢
          simp [Ev.startT, Ev.settleP, h2]
        · exact absurd hm (hnop t')
      · intro hno
        exact absurd (List.mem_cons_self _ _) (hno t)
      · intro hpf
        simp at hpf

theorem wf_stepEnqI {s : St} (h : WF s) (ok : Bool) : WF (stepEnq s ok) := by
  unfold stepEnq
  apply wf_procEntryI
  refine ⟨?_, ?_, ?_, ?_, ?_⟩
  · simpa using h.act
  · have := h.fifo
    simp only [St.enqTasks, St.startedTasks, List.filterMap_append, Ev.enqT,
      Ev.startT] at this ⊢
    simp [Ev.enqT, Ev.startT, ← List.append_assoc, this]
  · intro t hm
    have := h.tk1 t (by simpa using hm)
    simpa [St.startedPairs, St.startedTasks, St.settledPairs,
      List.filterMap_append, Ev.startT, Ev.settleP] using this
  · intro hno
    have := h.tk2 (by simpa using hno)
    simpa [St.startedPairs, St.startedTasks, St.settledPairs,
      List.filterMap_append, Ev.startT, Ev.settleP] using this
  · intro hpf
    simpa using h.cop (by simpa using hpf)

theorem wf_stepSigI {s : St} (h : WF s) : WF (stepSig s) := by
  unfold stepSig shutClean
  by_cases hp : s.processing
  · rw [if_pos hp]
    exact wf_spawnI h [PC.shutPoll 30] (by intro t hm; simp at hm)
      rfl rfl rfl rfl rfl rfl rfl
  · rw [if_neg hp]
    by_cases hc : s.context
    · rw [if_pos hc]
      exact wf_spawnI h [PC.shutCleanCtxPending] (by intro t hm; simp at hm)
        rfl rfl rfl rfl rfl rfl rfl
    · rw [if_neg hc]
      by_cases hb : s.browser
      · rw [if_pos hb]
        exact wf_spawnI h [PC.shutCleanBrPending] (by intro t hm; simp at hm)
          rfl rfl rfl rfl rfl rfl rfl
      · rw [if_neg hb]
        exact wf_spawnI h [PC.done] (by intro t hm; simp at hm)
          rfl rfl rfl rfl (by simp [St.enqTasks, St.startedTasks, St.settledPairs, List.filterMap_append, Ev.enqT, Ev.startT, Ev.settleP]) (by simp [St.enqTasks, St.startedTasks, St.settledPairs, List.filterMap_append, Ev.enqT, Ev.startT, Ev.settleP]) (by simp [St.enqTasks, St.startedTasks, St.settledPairs, List.filterMap_append, Ev.enqT, Ev.startT, Ev.settleP])

theorem wf_step_startI {s : St} (h : WF s) (hex : s.exited = false)
    (hmem : PC.startI ∈ s.frames) :
    WF (stepI s (Act.step PC.startI)) := by
  simp only [stepI, hex, Bool.false_eq_true, if_false]
  rw [if_pos hmem]
  simp only [frameStep]
  have hcnt := countP_erase_mem isOpPC hmem
  simp [isOpPC] at hcnt
  by_cases hp : s.processing
  · rw [if_pos hp]
    exact wf_consI h [PC.done] hmem (by simp [isOpPC]) (by intro t hm; simp at hm)
      rfl rfl rfl rfl rfl rfl rfl
  · rw [if_neg hp]
    have hz : s.frames.countP isOpPC = 0 := by
      have := h.act
      rw [Bool.eq_false_iff.mpr hp] at this
      simpa using this
    have hnop := no_op_of_zeroI hz
    have hznoerz : (s.frames.erase PC.startI).countP isOpPC = 0 := by omega
    have hnoperz := no_op_of_zeroI hznoerz
    cases hq : s.queue with
    | nil =>
      dsimp only
      exact wf_consI h [PC.done] hmem (by simp [isOpPC]) (by intro t hm; simp at hm)
        rfl hq.symm rfl rfl rfl rfl rfl
    | cons t rest =>
      refine ⟨?_, ?_, ?_, ?_, ?_⟩
      · simp [List.countP_cons, isOpPC, hznoerz]
      · have hf := h.fifo
        rw [hq] at hf
        simpa [St.enqTasks, St.startedTasks, List.filterMap_append, Ev.enqT,
          Ev.startT] using hf
      · intro t' hm
        rcases List.mem_cons.mp hm with hm | hm
        · cases hm
          have h2 := h.tk2 hnop
          simp only [St.startedPairs, St.startedTasks, St.settledPairs,
            List.filterMap_append, List.map_append] at h2 ⊢
          simp [Ev.startT, Ev.settleP, h2]
        · exact absurd (List.mem_of_mem_erase hm) (hnop t')
      · intro hno
        exact absurd (List.mem_cons_self _ _) (hno t)
      · intro hpf
        simp at hpf

theorem wf_step_opI {s : St} (h : WF s) (hex : s.exited = false) (t : Task)
    (hmem : PC.opPending t ∈ s.frames) :
    WF (stepI s (Act.step (PC.opPending t))) := by
  have hproc := proc_of_activeI h hmem (by simp [isOpPC])
  have herz := erase_zeroI h hmem (by simp [isOpPC])
  have hnoperz := no_op_of_zeroI herz
  have htk := h.tk1 t hmem
  simp only [stepI, hex, Bool.false_eq_true, if_false]
  rw [if_pos hmem]
  simp only [frameStep]
  by_cases hq : s.queue = []
  · rw [if_pos (by simpa using hq)]
    refine ⟨?_, ?_, ?_, ?_, ?_⟩
    · simp [List.countP_cons, isOpPC, herz]
    · simpa [St.enqTasks, St.startedTasks, List.filterMap_append, Ev.enqT,
        Ev.startT] using h.fifo
    · intro t' hm
      rcases List.mem_cons.mp hm with hm | hm
      · cases hm
      · exact absurd hm (hnoperz t')
    · intro _
      simp only [St.startedPairs, St.startedTasks, St.settledPairs,
        List.filterMap_append] at htk ⊢
      simp [Ev.startT, Ev.settleP, htk]
    · intro _
      rfl
  · rw [if_neg (by simpa using hq)]
    refine ⟨?_, ?_, ?_, ?_, ?_⟩
    · simp [List.countP_cons, isOpPC, herz]
    · simpa [St.enqTasks, St.startedTasks, List.filterMap_append, Ev.enqT,
        Ev.startT] using h.fifo
    · intro t' hm
      rcases List.mem_cons.mp hm with hm | hm
      · cases hm
      · rcases List.mem_cons.mp hm with hm | hm
        · cases hm
        · exact absurd hm (hnoperz t')
    · intro _
      simp only [St.startedPairs, St.startedTasks, St.settledPairs,
        List.filterMap_append] at htk ⊢
      simp [Ev.startT, Ev.settleP, htk]
    · intro _
      rfl

theorem wf_step_shutPoll {s : St} (h : WF s) (hex : s.exited = false) (n : Nat)
    (hmem : PC.shutPoll n ∈ s.frames) :
    WF (stepI s (Act.step (PC.shutPoll n))) := by
  simp only [stepI, hex, Bool.false_eq_true, if_false]
  rw [if_pos hmem]
  simp only [frameStep, shutClean]
  by_cases hcond : s.processing && decide (0 < n)
  · rw [if_pos hcond]
    exact wf_consI h [PC.shutPoll (n - 1)] hmem (by simp [isOpPC])
      (by intro t hm; simp at hm) rfl rfl rfl rfl rfl rfl rfl
  · rw [if_neg hcond]
    by_cases hc : s.context
    · rw [if_pos hc]
      exact wf_consI h [PC.shutCleanCtxPending] hmem (by simp [isOpPC])
        (by intro t hm; simp at hm) rfl rfl rfl rfl rfl rfl rfl
    · rw [if_neg hc]
      by_cases hb : s.browser
      · rw [if_pos hb]
        exact wf_consI h [PC.shutCleanBrPending] hmem (by simp [isOpPC])
          (by intro t hm; simp at hm) rfl rfl rfl rfl rfl rfl rfl
      · rw [if_neg hb]
        exact wf_consI h [PC.done] hmem (by simp [isOpPC])
          (by intro t hm; simp at hm) rfl rfl rfl rfl
          (by simp [St.enqTasks, St.startedTasks, St.settledPairs, List.filterMap_append, Ev.enqT, Ev.startT, Ev.settleP]) (by simp [St.enqTasks, St.startedTasks, St.settledPairs, List.filterMap_append, Ev.enqT, Ev.startT, Ev.settleP]) (by simp [St.enqTasks, St.startedTasks, St.settledPairs, List.filterMap_append, Ev.enqT, Ev.startT, Ev.settleP])

theorem wf_step_shutCtxI {s : St} (h : WF s) (hex : s.exited = false)
    (hmem : PC.shutCleanCtxPending ∈ s.frames) :
    WF (stepI s (Act.step PC.shutCleanCtxPending)) := by
  simp only [stepI, hex, Bool.false_eq_true, if_false]
  rw [if_pos hmem]
  simp only [frameStep]
  by_cases hb : s.browser
  · rw [if_pos (by simpa using hb)]
    exact wf_consI h [PC.shutCleanBrPending] hmem (by simp [isOpPC])
      (by intro t hm; simp at hm) rfl rfl rfl rfl rfl rfl rfl
  · rw [if_neg (by simpa using hb)]
    exact wf_consI h [PC.done] hmem (by simp [isOpPC])
      (by intro t hm; simp at hm) rfl rfl rfl rfl
      (by simp [St.enqTasks, St.startedTasks, St.settledPairs, List.filterMap_append, Ev.enqT, Ev.startT, Ev.settleP]) (by simp [St.enqTasks, St.startedTasks, St.settledPairs, List.filterMap_append, Ev.enqT, Ev.startT, Ev.settleP]) (by simp [St.enqTasks, St.startedTasks, St.settledPairs, List.filterMap_append, Ev.enqT, Ev.startT, Ev.settleP])

theorem wf_step_shutBrI {s : St} (h : WF s) (hex : s.exited = false)
    (hmem : PC.shutCleanBrPending ∈ s.frames) :
    WF (stepI s (Act.step PC.shutCleanBrPending)) := by
  simp only [stepI, hex, Bool.false_eq_true, if_false]
  rw [if_pos hmem]
  simp only [frameStep]
  exact wf_consI h [PC.done] hmem (by simp [isOpPC])
    (by intro t hm; simp at hm) rfl rfl rfl rfl
    (by simp [St.enqTasks, St.startedTasks, St.settledPairs, List.filterMap_append, Ev.enqT, Ev.startT, Ev.settleP]) (by simp [St.enqTasks, St.startedTasks, St.settledPairs, List.filterMap_append, Ev.enqT, Ev.startT, Ev.settleP]) (by simp [St.enqTasks, St.startedTasks, St.settledPairs, List.filterMap_append, Ev.enqT, Ev.startT, Ev.settleP])

theorem wf_step_doneI {s : St} (h : WF s) (hex : s.exited = false)
    (hmem : PC.done ∈ s.frames) :
    WF (stepI s (Act.step PC.done)) := by
  simp only [stepI, hex, Bool.false_eq_true, if_false]
  rw [if_pos hmem]
  simp only [frameStep]
  exact wf_consI h [PC.done] hmem (by simp [isOpPC])
    (by intro t hm; simp at hm) rfl rfl rfl rfl rfl rfl rfl

theorem wf_stepI {s : St} (h : WF s) (a : Act) : WF (stepI s a) := by
  by_cases hex : s.exited
  · simpa [stepI, hex] using h
  · have hx : s.exited = false := by simpa using hex
    cases a with
    | enq ok => simpa [stepI, hx] using wf_stepEnqI h ok
    | signal => simpa [stepI, hx] using wf_stepSigI h
    | step pc =>
      by_cases hmem : pc ∈ s.frames
      · cases pc with
        | startI => exact wf_step_startI h hx hmem
        | opPending t => exact wf_step_opI h hx t hmem
        | shutPoll n => exact wf_step_shutPoll h hx n hmem
        | shutCleanCtxPending => exact wf_step_shutCtxI h hx hmem
        | shutCleanBrPending => exact wf_step_shutBrI h hx hmem
        | done => exact wf_step_doneI h hx hmem
      · simp only [stepI, hx, Bool.false_eq_true, if_false]
        rw [if_neg hmem]
        exact h

theorem wf_foldlI {s : St} (h : WF s) (acts : List Act) : WF (acts.foldl stepI s) := by
  induction acts generalizing s with
  | nil => exact h
  | cons a rest ih => exact ih (wf_stepI h a)

theorem wf_runI (br ctx : Bool) (acts : List Act) : WF (runI br ctx acts) :=
  wf_foldlI (wf_st0I br ctx) acts

end Idle

namespace InitD

theorem wf_ist0 (store : Bool) : WF (st0 store) := by
  refine ⟨?_, ?_⟩ <;> simp [st0]

theorem init_of_creating {s : St} (h : WF s) {pc : CPc} (hmem : pc ∈ s.callers)
    (hcr : isCreating pc = true) : s.isInitializing = true := by
  cases hi : s.isInitializing
  · exfalso
    have hmx := h.mutex
    rw [hi] at hmx
    simp at hmx
    have := hmx pc hmem
    simp [hcr] at this
  · rfl

theorem creating_erase_zero {s : St} (h : WF s) {pc : CPc} (hmem : pc ∈ s.callers)
    (hcr : isCreating pc = true) :
    (s.callers.erase pc).countP isCreating = 0 := by
  have h1 := countP_erase_mem isCreating hmem
  have h2 := h.mutex
  rw [init_of_creating h hmem hcr] at h2
  rw [hcr] at h1
  simp at h1 h2
  omega

theorem count_zero_of_not_init {s : St} (h : WF s) (hi : s.isInitializing = false) :
    s.callers.countP isCreating = 0 := by
  have := h.mutex
  rw [hi] at this
  simpa using this

theorem wf_stepInit {s : St} (h : WF s) (a : Act) : WF (stepD s a) := by
  cases a with
  | call =>
    simp only [stepD, call]
    by_cases hbc : s.browser && s.context
    · rw [if_pos hbc]
      refine ⟨?_, ?_⟩
      · simpa [List.countP_cons, isCreating] using h.mutex
      · intro br ctx hm
        rcases List.mem_cons.mp hm with hm | hm
        · injection hm with h1 h2
          rw [h1]
          exact (Bool.and_eq_true_iff.mp hbc).1
        · exact h.ret br ctx hm
    · rw [if_neg hbc]
      by_cases hi : s.isInitializing
      · rw [if_pos hi]
        refine ⟨?_, ?_⟩
        · simpa [List.countP_cons, isCreating] using h.mutex
        · intro br ctx hm
          rcases List.mem_cons.mp hm with hm | hm
          · cases hm
          · exact h.ret br ctx hm
      · rw [if_neg hi]
        have hz := count_zero_of_not_init h (Bool.eq_false_iff.mpr hi)
        refine ⟨?_, ?_⟩
        · simp [List.countP_cons, isCreating, hz]
        · intro br ctx hm
          rcases List.mem_cons.mp hm with hm | hm
          · cases hm
          · exact h.ret br ctx hm
  | step pc ok =>
    simp only [stepD]
    by_cases hmem : pc ∈ s.callers
    · rw [if_pos hmem]
      have hce := countP_erase_mem isCreating hmem
      have hret : ∀ br ctx, CPc.doneRet br ctx ∈ s.callers.erase pc → br = true :=
        fun br ctx hm => h.ret br ctx (List.mem_of_mem_erase hm)
      cases pc with
      | poll =>
        simp only [callerStep]
        simp [isCreating] at hce
        by_cases hb : s.browser
        · rw [if_pos hb]
          refine ⟨?_, ?_⟩
          · rw [List.countP_cons]
            have := h.mutex
            simp [isCreating]
            omega
          · intro br ctx hm
            rcases List.mem_cons.mp hm with hm | hm
            · injection hm with h1 h2
              rw [h1]
              exact hb
            · exact hret br ctx hm
        · rw [if_neg hb]
          by_cases hi : s.isInitializing
          · rw [if_pos hi]
            refine ⟨?_, ?_⟩
            · rw [List.countP_cons]
              have := h.mutex
              simp [isCreating]
              omega
            · intro br ctx hm
              rcases List.mem_cons.mp hm with hm | hm
              · cases hm
              · exact hret br ctx hm
          · rw [if_neg hi]
            have hz := count_zero_of_not_init h (Bool.eq_false_iff.mpr hi)
            refine ⟨?_, ?_⟩
            · rw [List.countP_cons]
              simp only [isCreating, if_true]
              omega
            · intro br ctx hm
              rcases List.mem_cons.mp hm with hm | hm
              · cases hm
              · exact hret br ctx hm
      | launchP =>
        have hinit := init_of_creating h hmem (by simp [isCreating])
        have herz := creating_erase_zero h hmem (by simp [isCreating])
        simp only [callerStep]
        cases ok with
        | true =>
          rw [if_pos rfl]
          refine ⟨?_, ?_⟩
          · rw [List.countP_cons, hinit]
            simp [isCreating, herz]
          · intro br ctx hm
            rcases List.mem_cons.mp hm with hm | hm
            · cases hm
            · exact hret br ctx hm
        | false =>
          rw [if_neg (by simp)]
          simp only [callerCatch, failTail]
          by_cases hc : s.context
          · rw [if_pos hc]
            refine ⟨?_, ?_⟩
            · rw [List.countP_cons, hinit]
              simp [isCreating, herz]
            · intro br ctx hm
              rcases List.mem_cons.mp hm with hm | hm
              · cases hm
              · exact hret br ctx hm
          · rw [if_neg hc]
            by_cases hb : s.browser
            · rw [if_pos hb]
              refine ⟨?_, ?_⟩
              · rw [List.countP_cons, hinit]
                simp [isCreating, herz]
              · intro br ctx hm
                rcases List.mem_cons.mp hm with hm | hm
                · cases hm
                · exact hret br ctx hm
            · rw [if_neg hb]
              refine ⟨?_, ?_⟩
              · rw [List.countP_cons]
                simp [isCreating, herz]
              · intro br ctx hm
                rcases List.mem_cons.mp hm with hm | hm
                · cases hm
                · exact hret br ctx hm
      | loadP =>
        have hinit := init_of_creating h hmem (by simp [isCreating])
        have herz := creating_erase_zero h hmem (by simp [isCreating])
        simp only [callerStep]
        by_cases hso : s.storeHas && ok
        · rw [if_pos hso]
          refine ⟨?_, ?_⟩
          · rw [List.countP_cons, hinit]
            simp [isCreating, herz]
          · intro br ctx hm
            rcases List.mem_cons.mp hm with hm | hm
            · cases hm
            · exact hret br ctx hm
        · rw [if_neg hso]
          refine ⟨?_, ?_⟩
          · rw [List.countP_cons, hinit]
            simp [isCreating, herz]
          · intro br ctx hm
            rcases List.mem_cons.mp hm with hm | hm
            · cases hm
            · exact hret br ctx hm
      | newCtxP =>
        have hinit := init_of_creating h hmem (by simp [isCreating])
        have herz := creating_erase_zero h hmem (by simp [isCreating])
        simp only [callerStep]
        cases ok with
        | true =>
          rw [if_pos rfl]
          refine ⟨?_, ?_⟩
          · rw [List.countP_cons]
            simp [isCreating, herz]
          · intro br ctx hm
            rcases List.mem_cons.mp hm with hm | hm
            · injection hm with h1 h2
            · exact hret br ctx hm
        | false =>
          rw [if_neg (by simp)]
          simp only [callerCatch, failTail]
          by_cases hc : s.context
          · rw [if_pos hc]
            refine ⟨?_, ?_⟩
            · rw [List.countP_cons, hinit]
              simp [isCreating, herz]
            · intro br ctx hm
              rcases List.mem_cons.mp hm with hm | hm
              · cases hm
              · exact hret br ctx hm
          · rw [if_neg hc]
            by_cases hb : s.browser
            · rw [if_pos hb]
              refine ⟨?_, ?_⟩
              · rw [List.countP_cons, hinit]
                simp [isCreating, herz]
              · intro br ctx hm
                rcases List.mem_cons.mp hm with hm | hm
                · cases hm
                · exact hret br ctx hm
            · rw [if_neg hb]
              refine ⟨?_, ?_⟩
              · rw [List.countP_cons]
                simp [isCreating, herz]
              · intro br ctx hm
                rcases List.mem_cons.mp hm with hm | hm
                · cases hm
                · exact hret br ctx hm
      | cleanCtxP =>
        have hinit := init_of_creating h hmem (by simp [isCreating])
        have herz := creating_erase_zero h hmem (by simp [isCreating])
        simp only [callerStep, failTail]
        by_cases hb : s.browser
        · rw [if_pos (by simpa using hb)]
          refine ⟨?_, ?_⟩
          · rw [List.countP_cons, hinit]
            simp [isCreating, herz]
          · intro br ctx hm
            rcases List.mem_cons.mp hm with hm | hm
            · cases hm
            · exact hret br ctx hm
        · rw [if_neg (by simpa using hb)]
          refine ⟨?_, ?_⟩
          · rw [List.countP_cons]
            simp [isCreating, herz]
          · intro br ctx hm
            rcases List.mem_cons.mp hm with hm | hm
            · cases hm
            · exact hret br ctx hm
      | cleanBrP =>
        have herz := creating_erase_zero h hmem (by simp [isCreating])
        simp only [callerStep, failTail]
        refine ⟨?_, ?_⟩
        · rw [List.countP_cons]
          simp [isCreating, herz]
        · intro br ctx hm
          rcases List.mem_cons.mp hm with hm | hm
          · cases hm
          · exact hret br ctx hm
      | doneRet br0 ctx0 =>
        simp only [callerStep]
        simp [isCreating] at hce
        refine ⟨?_, ?_⟩
        · rw [List.countP_cons]
          have := h.mutex
          simp [isCreating]
          omega
        · intro br ctx hm
          rcases List.mem_cons.mp hm with hm | hm
          · injection hm with h1 h2
            rw [h1]
            exact h.ret br0 ctx0 hmem
          · exact hret br ctx hm
      | doneErr =>
        simp only [callerStep]
        simp [isCreating] at hce
        refine ⟨?_, ?_⟩
        · rw [List.countP_cons]
          have := h.mutex
          simp [isCreating]
          omega
        · intro br ctx hm
          rcases List.mem_cons.mp hm with hm | hm
          · cases hm
          · exact hret br ctx hm
    · rw [if_neg hmem]
      exact h

theorem wf_foldlInit {s : St} (h : WF s) (acts : List Act) :
    WF (acts.foldl stepD s) := by
  induction acts generalizing s with
  | nil => exact h
  | cons a rest ih => exact ih (wf_stepInit h a)

theorem wf_runInit (store : Bool) (acts : List Act) : WF (runInit store acts) :=
  wf_foldlInit (wf_ist0 store) acts

end InitD

namespace InitD

theorem okwf_stepInit {s : St} (hok : OkWF s) (a : Act) (hA : okAct a = true) :
    OkWF (stepD s a) := by
  obtain ⟨k1, k2, k3, k4, k5⟩ := hok
  cases a with
  | call =>
    simp only [stepD, call]
    by_cases hbc : s.browser && s.context
    · rw [if_pos hbc]
      refine ⟨k1, k2, ?_, ?_, ?_⟩
      · intro c hm hcl
        rcases List.mem_cons.mp hm with hm | hm
        · rcases hcl with hcl | hcl <;> rw [hcl] at hm <;> cases hm
        · exact k3 c hm hcl
      · intro hm
        rcases List.mem_cons.mp hm with hm | hm
        · cases hm
        · exact k4 hm
      · intro hm
        rcases List.mem_cons.mp hm with hm | hm
        · cases hm
        · exact k5 hm
    · rw [if_neg hbc]
      by_cases hi : s.isInitializing
      · rw [if_pos hi]
        refine ⟨k1, k2, ?_, ?_, ?_⟩
        · intro c hm hcl
          rcases List.mem_cons.mp hm with hm | hm
          · rcases hcl with hcl | hcl <;> rw [hcl] at hm <;> cases hm
          · exact k3 c hm hcl
        · intro hm
          rcases List.mem_cons.mp hm with hm | hm
          · cases hm
          · exact k4 hm
        · intro hm
          rcases List.mem_cons.mp hm with hm | hm
          · cases hm
          · exact k5 hm
      · rw [if_neg hi]
        have hz : s.events.count IEv.launchStart = 0 := by
          rcases Nat.lt_or_ge (s.events.count IEv.launchStart) 1 with hlt | hge
          · omega
          · exfalso
            have h1 : s.events.count IEv.launchStart = 1 := by omega
            rcases k2 h1 with h2 | h2
            · rw [h2] at hi
              exact hi rfl
            · rw [h2.1, h2.2] at hbc
              simp at hbc
        refine ⟨?_, ?_, ?_, ?_, ?_⟩
        · simp [List.count_append, hz]
        · intro _
          left
          rfl
        · intro c hm hcl
          rcases List.mem_cons.mp hm with hm | hm
          · rcases hcl with hcl | hcl <;> rw [hcl] at hm <;> cases hm
          · exact k3 c hm hcl
        · intro hm
          rcases List.mem_cons.mp hm with hm | hm
          · cases hm
          · exact k4 hm
        · intro hm
          rcases List.mem_cons.mp hm with hm | hm
          · cases hm
          · exact k5 hm
  | step pc ok =>
    have hT : ok = true := hA
    subst hT
    simp only [stepD]
    by_cases hmem : pc ∈ s.callers
    · rw [if_pos hmem]
      have k3e : ∀ c ∈ s.callers.erase pc, c = CPc.loadP ∨ c = CPc.newCtxP →
          s.browser = true :=
        fun c hm hcl => k3 c (List.mem_of_mem_erase hm) hcl
      have k4e : CPc.cleanCtxP ∉ s.callers.erase pc :=
        fun hm => k4 (List.mem_of_mem_erase hm)
      have k5e : CPc.cleanBrP ∉ s.callers.erase pc :=
        fun hm => k5 (List.mem_of_mem_erase hm)
      cases pc with
      | poll =>
        simp only [callerStep]
        by_cases hb : s.browser
        · rw [if_pos hb]
          refine ⟨k1, k2, ?_, ?_, ?_⟩
          · intro c hm hcl
            rcases List.mem_cons.mp hm with hm | hm
            · rcases hcl with hcl | hcl <;> rw [hcl] at hm <;> cases hm
            · exact k3e c hm hcl
          · intro hm
            rcases List.mem_cons.mp hm with hm | hm
            · cases hm
            · exact k4e hm
          · intro hm
            rcases List.mem_cons.mp hm with hm | hm
            · cases hm
            · exact k5e hm
        · rw [if_neg hb]
          by_cases hi : s.isInitializing
          · rw [if_pos hi]
            refine ⟨k1, k2, ?_, ?_, ?_⟩
            · intro c hm hcl
              rcases List.mem_cons.mp hm with hm | hm
              · rcases hcl with hcl | hcl <;> rw [hcl] at hm <;> cases hm
              · exact k3e c hm hcl
            · intro hm
              rcases List.mem_cons.mp hm with hm | hm
              · cases hm
              · exact k4e hm
            · intro hm
              rcases List.mem_cons.mp hm with hm | hm
              · cases hm
              · exact k5e hm
          · rw [if_neg hi]
            have hz : s.events.count IEv.launchStart = 0 := by
              rcases Nat.lt_or_ge (s.events.count IEv.launchStart) 1 with hlt | hge
              · omega
              · exfalso
                have h1 : s.events.count IEv.launchStart = 1 := by omega
                rcases k2 h1 with h2 | h2
                · rw [h2] at hi
                  exact hi rfl
                · rw [h2.1] at hb
                  exact hb rfl
            refine ⟨?_, ?_, ?_, ?_, ?_⟩
            · simp [List.count_append, hz]
            · intro _
              left
              rfl
            · intro c hm hcl
              rcases List.mem_cons.mp hm with hm | hm
              · rcases hcl with hcl | hcl <;> rw [hcl] at hm <;> cases hm
              · exact k3e c hm hcl
            · intro hm
              rcases List.mem_cons.mp hm with hm | hm
              · cases hm
              · exact k4e hm
            · intro hm
              rcases List.mem_cons.mp hm with hm | hm
              · cases hm
              · exact k5e hm
      | launchP =>
        simp only [callerStep]
        rw [if_true]
        refine ⟨?_, ?_, ?_, ?_, ?_⟩
        · simpa [List.count_append] using k1
        · intro h1
          simp [List.count_append] at h1
          rcases k2 h1 with h2 | h2
          · left
            exact h2
          · right
            exact ⟨rfl, h2.2⟩
        · intro c hm hcl
          rfl
        · intro hm
          rcases List.mem_cons.mp hm with hm | hm
          · cases hm
          · exact k4e hm
        · intro hm
          rcases List.mem_cons.mp hm with hm | hm
          · cases hm
          · exact k5e hm
      | loadP =>
        have hbr : s.browser = true := k3 CPc.loadP hmem (Or.inl rfl)
        simp only [callerStep]
        by_cases hso : s.storeHas && true
        · rw [if_pos hso]
          refine ⟨?_, ?_, ?_, ?_, ?_⟩
          · simpa [List.count_append] using k1
          · intro h1
            simp [List.count_append] at h1
            exact k2 h1
          · intro c hm hcl
            exact hbr
          · intro hm
            rcases List.mem_cons.mp hm with hm | hm
            · cases hm
            · exact k4e hm
          · intro hm
            rcases List.mem_cons.mp hm with hm | hm
            · cases hm
            · exact k5e hm
        · rw [if_neg hso]
          refine ⟨?_, ?_, ?_, ?_, ?_⟩
          · simpa [List.count_append] using k1
          · intro h1
            simp [List.count_append] at h1
            exact k2 h1
          · intro c hm hcl
            exact hbr
          · intro hm
            rcases List.mem_cons.mp hm with hm | hm
            · cases hm
            · exact k4e hm
          · intro hm
            rcases List.mem_cons.mp hm with hm | hm
            · cases hm
            · exact k5e hm
      | newCtxP =>
        have hbr : s.browser = true := k3 CPc.newCtxP hmem (Or.inr rfl)
        simp only [callerStep]
        rw [if_true]
        refine ⟨?_, ?_, ?_, ?_, ?_⟩
        · simpa [List.count_append] using k1
        · intro _
          right
          exact ⟨hbr, rfl⟩
        · intro c hm hcl
          exact hbr
        · intro hm
          rcases List.mem_cons.mp hm with hm | hm
          · cases hm
          · exact k4e hm
        · intro hm
          rcases List.mem_cons.mp hm with hm | hm
          · cases hm
          · exact k5e hm
      | cleanCtxP => exact absurd hmem k4
      | cleanBrP => exact absurd hmem k5
      | doneRet br0 ctx0 =>
        simp only [callerStep]
        refine ⟨k1, k2, ?_, ?_, ?_⟩
        · intro c hm hcl
          rcases List.mem_cons.mp hm with hm | hm
          · rcases hcl with hcl | hcl <;> rw [hcl] at hm <;> cases hm
          · exact k3e c hm hcl
        · intro hm
          rcases List.mem_cons.mp hm with hm | hm
          · cases hm
          · exact k4e hm
        · intro hm
          rcases List.mem_cons.mp hm with hm | hm
          · cases hm
          · exact k5e hm
      | doneErr =>
        simp only [callerStep]
        refine ⟨k1, k2, ?_, ?_, ?_⟩
        · intro c hm hcl
          rcases List.mem_cons.mp hm with hm | hm
          · rcases hcl with hcl | hcl <;> rw [hcl] at hm <;> cases hm
          · exact k3e c hm hcl
        · intro hm
          rcases List.mem_cons.mp hm with hm | hm
          · cases hm
          · exact k4e hm
        · intro hm
          rcases List.mem_cons.mp hm with hm | hm
          · cases hm
          · exact k5e hm
    · rw [if_neg hmem]
      exact ⟨k1, k2, k3, k4, k5⟩

theorem okwf_foldlInit {s : St} (hok : OkWF s) (acts : List Act)
    (hA : ∀ a ∈ acts, okAct a = true) :
    OkWF (acts.foldl stepD s) := by
  induction acts generalizing s with
  | nil => exact hok
  | cons a rest ih =>
    exact ih (okwf_stepInit hok a (hA a (List.mem_cons_self a rest)))
      (fun b hb => hA b (List.mem_cons_of_mem a hb))

theorem okwf_ist0 (store : Bool) : OkWF (st0 store) := by
  refine ⟨?_, ?_, ?_, ?_, ?_⟩ <;> simp [st0]

theorem okwf_runInit (store : Bool) (acts : List Act)
    (hA : ∀ a ∈ acts, okAct a = true) : OkWF (runInit store acts) :=
  okwf_foldlInit (okwf_ist0 store) acts hA

end InitD

theorem countP_le_of_imp {α : Type} (p q : α → Bool) (l : List α)
    (himp : ∀ x, p x = true → q x = true) : l.countP p ≤ l.countP q := by
  induction l with
  | nil => simp
  | cons a l ih =>
    rw [List.countP_cons, List.countP_cons]
    by_cases hpa : p a = true
    · rw [hpa, himp a hpa]
      simp
      omega
    · have h0 : (if p a = true then 1 else 0) = 0 := by simp [hpa]
      rw [h0]
      split
      · omega
      · omega

theorem drain_settled_prefix (store : Bool) (acts : List Drain.Act) :
    ∃ tail : List (Nat × Bool), tail.length ≤ 1 ∧
      (Drain.runD store acts).startedPairs =
        (Drain.runD store acts).settledPairs ++ tail := by
  have wf := Drain.wf_runD store acts
  by_cases hop : ∃ t : Task, Drain.PC.opPending t ∈ (Drain.runD store acts).frames
  · obtain ⟨t, ht⟩ := hop
    exact ⟨[(t.id, t.ok)], by simp, wf.tk1 t ht⟩
  · push_neg at hop
    exact ⟨[], by simp, by simpa using wf.tk2 hop⟩

theorem idle_settled_prefix (br ctx : Bool) (acts : List Idle.Act) :
    ∃ tail : List (Nat × Bool), tail.length ≤ 1 ∧
      (Idle.runI br ctx acts).startedPairs =
        (Idle.runI br ctx acts).settledPairs ++ tail := by
  have wf := Idle.wf_runI br ctx acts
  by_cases hop : ∃ t : Task, Idle.PC.opPending t ∈ (Idle.runI br ctx acts).frames
  · obtain ⟨t, ht⟩ := hop
    exact ⟨[(t.id, t.ok)], by simp, wf.tk1 t ht⟩
  · push_neg at hop
    exact ⟨[], by simp, by simpa using wf.tk2 hop⟩

/-- C1: in both revisions, for every schedule of concurrent enqueues,
resumptions and signals: (1) the tasks whose operations have started,
followed by the tasks still queued, are exactly the enqueued tasks in
arrival order — so operations start in strict FIFO order and nothing is
dropped or duplicated; (2) the settled trace is a prefix of the started
trace, outcome for outcome, missing at most the single operation
currently in flight — so each task is settled at most once, is settled
exactly once as soon as its operation's completion is delivered, and no
operation starts before the previous one settled; (3) at every reachable
state at most one `task.operation()` body is in flight; (4) a concrete
delivered run settles its task.  (Eventual start/settlement when
resource creation fails is the subject of C3.) -/
theorem claim_C1_fifo_serialization :
    (∀ (store : Bool) (acts : List Drain.Act),
      (Drain.runD store acts).startedTasks ++ (Drain.runD store acts).queue =
          (Drain.runD store acts).enqTasks ∧
      (∃ tail : List (Nat × Bool), tail.length ≤ 1 ∧
        (Drain.runD store acts).startedPairs =
          (Drain.runD store acts).settledPairs ++ tail) ∧
      (Drain.runD store acts).frames.countP Drain.isOpPC ≤ 1) ∧
    (∀ (br ctx : Bool) (acts : List Idle.Act),
      (Idle.runI br ctx acts).startedTasks ++ (Idle.runI br ctx acts).queue =
          (Idle.runI br ctx acts).enqTasks ∧
      (∃ tail : List (Nat × Bool), tail.length ≤ 1 ∧
        (Idle.runI br ctx acts).startedPairs =
          (Idle.runI br ctx acts).settledPairs ++ tail) ∧
      (Idle.runI br ctx acts).frames.countP Idle.isOpPC ≤ 1) ∧
    (Drain.runD false [Drain.Act.enq true,
        Drain.Act.step Drain.PC.launchPending true,
        Drain.Act.step Drain.PC.loadPending true,
        Drain.Act.step Drain.PC.newCtxPending true,
        Drain.Act.step Drain.PC.loopTop true,
        Drain.Act.step (Drain.PC.opPending ⟨0, true⟩) true,
        Drain.Act.step Drain.PC.loopTop true]).settledPairs = [(0, true)] ∧
    (Idle.runI false false [Idle.Act.enq true,
        Idle.Act.step (Idle.PC.opPending ⟨0, true⟩)]).settledPairs = [(0, true)] := by
  refine ⟨?_, ?_, by decide, by decide⟩
  · intro store acts
    have wf := Drain.wf_runD store acts
    refine ⟨wf.fifo, drain_settled_prefix store acts, ?_⟩
    have h1 := countP_le_of_imp Drain.isOpPC Drain.isActivePC
      (Drain.runD store acts).frames
      (by intro x hx; cases x <;> simp [Drain.isOpPC, Drain.isActivePC] at hx ⊢)
    have h2 := wf.act
    rw [h2] at h1
    split at h1
    · omega
    · omega
  · intro br ctx acts
    have wf := Idle.wf_runI br ctx acts
    refine ⟨wf.fifo, idle_settled_prefix br ctx acts, ?_⟩
    have h2 := wf.act
    rw [h2]
    split
    · omega
    · omega

/-- C4: a task whose operation rejects is settled as that task's own
rejection only: resuming `task.operation()` for task `t` appends exactly
the settlement `(t.id, t.ok)` to the trace and leaves the `processing`
flag and the queued tasks untouched (in the idle revision it also
reschedules `processQueue` via `setImmediate` when tasks remain), so the
loop is not aborted; in every schedule the settled trace records each
enqueued task's own outcome in order (never another task's), and the
queue length accounting |enqueued| = |settled| + |in flight| + |queued|
holds with at most one in flight; the spec's scenario (ok a, failing b,
ok c) settles a, then b's error, then c, ending with queue length 0. -/
theorem claim_C4_failure_isolation :
    (∀ (s : Drain.St) (t : Task) (ok : Bool), s.exited = false →
      Drain.PC.opPending t ∈ s.frames →
      (Drain.stepD s (Drain.Act.step (Drain.PC.opPending t) ok)).settledPairs =
          s.settledPairs ++ [(t.id, t.ok)] ∧
      (Drain.stepD s (Drain.Act.step (Drain.PC.opPending t) ok)).processing =
          s.processing ∧
      (Drain.stepD s (Drain.Act.step (Drain.PC.opPending t) ok)).queue = s.queue) ∧
    (∀ (s : Idle.St) (t : Task), s.exited = false →
      Idle.PC.opPending t ∈ s.frames →
      (Idle.stepI s (Idle.Act.step (Idle.PC.opPending t))).settledPairs =
          s.settledPairs ++ [(t.id, t.ok)] ∧
      (Idle.stepI s (Idle.Act.step (Idle.PC.opPending t))).queue = s.queue ∧
      (s.queue ≠ [] →
        Idle.PC.startI ∈ (Idle.stepI s (Idle.Act.step (Idle.PC.opPending t))).frames)) ∧
    (∀ (store : Bool) (acts : List Drain.Act),
      (Drain.runD store acts).startedTasks ++ (Drain.runD store acts).queue =
          (Drain.runD store acts).enqTasks ∧
      ∃ tail : List (Nat × Bool), tail.length ≤ 1 ∧
        (Drain.runD store acts).startedPairs =
          (Drain.runD store acts).settledPairs ++ tail) ∧
    ((Drain.runD false [Drain.Act.enq true, Drain.Act.enq false, Drain.Act.enq true,
        Drain.Act.step Drain.PC.launchPending true,
        Drain.Act.step Drain.PC.loadPending true,
        Drain.Act.step Drain.PC.newCtxPending true,
        Drain.Act.step Drain.PC.loopTop true,
        Drain.Act.step (Drain.PC.opPending ⟨0, true⟩) true,
        Drain.Act.step Drain.PC.loopTop true,
        Drain.Act.step (Drain.PC.opPending ⟨1, false⟩) true,
        Drain.Act.step Drain.PC.loopTop true,
        Drain.Act.step (Drain.PC.opPending ⟨2, true⟩) true,
        Drain.Act.step Drain.PC.loopTop true]).settledPairs =
        [(0, true), (1, false), (2, true)] ∧
      (Drain.runD false [Drain.Act.enq true, Drain.Act.enq false, Drain.Act.enq true,
        Drain.Act.step Drain.PC.launchPending true,
        Drain.Act.step Drain.PC.loadPending true,
        Drain.Act.step Drain.PC.newCtxPending true,
        Drain.Act.step Drain.PC.loopTop true,
        Drain.Act.step (Drain.PC.opPending ⟨0, true⟩) true,
        Drain.Act.step Drain.PC.loopTop true,
        Drain.Act.step (Drain.PC.opPending ⟨1, false⟩) true,
        Drain.Act.step Drain.PC.loopTop true,
        Drain.Act.step (Drain.PC.opPending ⟨2, true⟩) true,
        Drain.Act.step Drain.PC.loopTop true]).queue = []) ∧
    ((Idle.runI false false [Idle.Act.enq true, Idle.Act.enq false, Idle.Act.enq true,
        Idle.Act.step (Idle.PC.opPending ⟨0, true⟩), Idle.Act.step Idle.PC.startI,
        Idle.Act.step (Idle.PC.opPending ⟨1, false⟩), Idle.Act.step Idle.PC.startI,
        Idle.Act.step (Idle.PC.opPending ⟨2, true⟩)]).settledPairs =
        [(0, true), (1, false), (2, true)] ∧
      (Idle.runI false false [Idle.Act.enq true, Idle.Act.enq false, Idle.Act.enq true,
        Idle.Act.step (Idle.PC.opPending ⟨0, true⟩), Idle.Act.step Idle.PC.startI,
        Idle.Act.step (Idle.PC.opPending ⟨1, false⟩), Idle.Act.step Idle.PC.startI,
        Idle.Act.step (Idle.PC.opPending ⟨2, true⟩)]).queue = []) := by
  refine ⟨?_, ?_, ?_, by decide, by decide⟩
  · intro s t ok hex hmem
    simp only [Drain.stepD, hex, Bool.false_eq_true, if_false]
    rw [if_pos hmem]
    simp only [Drain.frameStep]
    by_cases hl : s.isLoggedIn
    · rw [if_pos hl]
      refine ⟨?_, rfl, rfl⟩
      simp [Drain.St.settledPairs, List.filterMap_append, Ev.settleP]
    · rw [if_neg hl]
      refine ⟨?_, rfl, rfl⟩
      simp [Drain.St.settledPairs, List.filterMap_append, Ev.settleP]
  · intro s t hex hmem
    simp only [Idle.stepI, hex, Bool.false_eq_true, if_false]
    rw [if_pos hmem]
    simp only [Idle.frameStep]
    by_cases hq : s.queue = []
    · rw [if_pos (by simpa using hq)]
      refine ⟨?_, rfl, ?_⟩
      · simp [Idle.St.settledPairs, List.filterMap_append, Ev.settleP]
      · intro hq2
        exact absurd hq hq2
    · rw [if_neg (by simpa using hq)]
      refine ⟨?_, rfl, ?_⟩
      · simp [Idle.St.settledPairs, List.filterMap_append, Ev.settleP]
      · intro _
        simp
  · intro store acts
    exact ⟨(Drain.wf_runD store acts).fifo, drain_settled_prefix store acts⟩

/-- C4 witness: the drain and idle operation-settlement characterizations
applied at the state with one operation in flight. -/
theorem claim_C4_failure_isolation_witness :
    (Drain.stepD
        (Drain.runD false [Drain.Act.enq false,
          Drain.Act.step Drain.PC.launchPending true,
          Drain.Act.step Drain.PC.loadPending true,
          Drain.Act.step Drain.PC.newCtxPending true,
          Drain.Act.step Drain.PC.loopTop true])
        (Drain.Act.step (Drain.PC.opPending ⟨0, false⟩) true)).settledPairs =
      (Drain.runD false [Drain.Act.enq false,
          Drain.Act.step Drain.PC.launchPending true,
          Drain.Act.step Drain.PC.loadPending true,
          Drain.Act.step Drain.PC.newCtxPending true,
          Drain.Act.step Drain.PC.loopTop true]).settledPairs ++ [(0, false)] ∧
    (Idle.stepI (Idle.runI false false [Idle.Act.enq false])
        (Idle.Act.step (Idle.PC.opPending ⟨0, false⟩))).settledPairs =
      (Idle.runI false false [Idle.Act.enq false]).settledPairs ++ [(0, false)] :=
  ⟨(claim_C4_failure_isolation.1 _ ⟨0, false⟩ true (by decide) (by decide)).1,
   (claim_C4_failure_isolation.2.1 _ ⟨0, false⟩ (by decide) (by decide)).1⟩

/-- C10: the status report is internally coherent in both revisions: in
the initial state `getStatus` reports queue length 0, `processing`
false and `currentOperation` null, and in every reachable state of
either revision, whenever `getStatus` reports `processing = false` it
also reports `currentOperation = null` (every exit path of the
processing loop resets both together in one synchronous segment). -/
theorem claim_C10_status_coherence :
    (∀ store : Bool, Drain.getStatus (Drain.st0 store) = (0, false, none)) ∧
    (∀ (store : Bool) (acts : List Drain.Act),
      (Drain.getStatus (Drain.runD store acts)).2.1 = false →
      (Drain.getStatus (Drain.runD store acts)).2.2 = none) ∧
    (∀ br ctx : Bool, Idle.getStatus (Idle.st0 br ctx) = (0, false, none)) ∧
    (∀ (br ctx : Bool) (acts : List Idle.Act),
      (Idle.getStatus (Idle.runI br ctx acts)).2.1 = false →
      (Idle.getStatus (Idle.runI br ctx acts)).2.2 = none) := by
  refine ⟨?_, ?_, ?_, ?_⟩
  · intro store
    rfl
  · intro store acts h
    exact (Drain.wf_runD store acts).cop h
  · intro br ctx
    rfl
  · intro br ctx acts h
    exact (Idle.wf_runI br ctx acts).cop h

/-- C10 witness: the coherence implications applied at the initial state
and at a drained post-run state. -/
theorem claim_C10_status_coherence_witness :
    (Drain.getStatus (Drain.runD false [Drain.Act.enq true,
        Drain.Act.step Drain.PC.launchPending false])).2.2 = none ∧
    (Idle.getStatus (Idle.runI false false [Idle.Act.enq true,
        Idle.Act.step (Idle.PC.opPending ⟨0, true⟩)])).2.2 = none :=
  ⟨claim_C10_status_coherence.2.1 false _ (by decide),
   claim_C10_status_coherence.2.2.2 false false _ (by decide)⟩

/-- C3 counterexample: enqueue one task while the session file is absent;
`processQueue` starts `chromium.launch`, which fails.  The claim says the
failure is delivered as the rejection of the triggering task and the loop
continues; in fact the error is swallowed by `processQueue`'s outer catch
(line 254): no settlement is ever recorded, the task is still queued,
and processing has stopped — the task is stranded until some later
unrelated enqueue restarts the loop. -/
theorem claim_C3_counterexample :
    (Drain.runD false [Drain.Act.enq true,
        Drain.Act.step Drain.PC.launchPending false]).settledPairs = [] ∧
    (Drain.runD false [Drain.Act.enq true,
        Drain.Act.step Drain.PC.launchPending false]).queue.map Task.id = [0] ∧
    (Drain.runD false [Drain.Act.enq true,
        Drain.Act.step Drain.PC.launchPending false]).processing = false ∧
    (Drain.runD false [Drain.Act.enq true,
        Drain.Act.step Drain.PC.launchPending false]).frames = [Drain.PC.done] ∧
    (Drain.runD false [Drain.Act.enq true,
        Drain.Act.step Drain.PC.launchPending false]).events.count Ev.launchStart = 1 := by
  decide

/-- C3 amended: if resource creation fails while the queue is processing,
no task is rejected: the error is caught and logged by `processQueue`'s
outer catch, the loop stops with `processing` reset and `currentOperation`
null, and every queued task (including the one that triggered the
attempt) remains queued and unsettled; a later `enqueue` restarts
processing and performs a fresh `chromium.launch` attempt. -/
theorem claim_C3_amended :
    (∀ s : Drain.St, s.exited = false → Drain.PC.launchPending ∈ s.frames →
      s.context = false → s.browser = false →
      (Drain.stepD s (Drain.Act.step Drain.PC.launchPending false)).settledPairs =
          s.settledPairs ∧
      (Drain.stepD s (Drain.Act.step Drain.PC.launchPending false)).queue = s.queue ∧
      (Drain.stepD s (Drain.Act.step Drain.PC.launchPending false)).processing = false ∧
      (Drain.stepD s (Drain.Act.step Drain.PC.launchPending false)).currentOp = none) ∧
    (∀ (s : Drain.St) (ok : Bool), s.exited = false → s.processing = false →
      s.browser = false → s.isInitializing = false →
      (Drain.stepD s (Drain.Act.enq ok)).frames =
          Drain.PC.launchPending :: s.frames ∧
      (Drain.stepD s (Drain.Act.enq ok)).isInitializing = true ∧
      (Drain.stepD s (Drain.Act.enq ok)).events =
        s.events ++ [Ev.enq ⟨s.nextId, ok⟩] ++ [Ev.launchStart]) := by
  constructor
  · intro s hex hmem hc hb
    simp only [Drain.stepD, hex, Bool.false_eq_true, if_false]
    rw [if_pos hmem]
    simp only [Drain.frameStep]
    rw [if_neg (by simp)]
    simp only [Drain.initCatch]
    rw [if_neg (by simpa using hc), if_neg (by simpa using hb)]
    simp only [Drain.abortTail]
    by_cases hq : s.queue = []
    · rw [if_pos (by simpa using hq), if_neg (by simpa using hc),
        if_neg (by simpa using hb)]
      exact ⟨rfl, rfl, rfl, rfl⟩
    · rw [if_neg (by simpa using hq)]
      exact ⟨rfl, rfl, rfl, rfl⟩
  · intro s ok hex hp hb hi
    simp only [Drain.stepD, hex, Bool.false_eq_true, if_false]
    simp only [Drain.stepEnq, Drain.procEntry]
    rw [if_neg (by simpa using hp), if_neg (by simp),
      if_neg (by simp [hb]), if_neg (by simpa using hi)]
    exact ⟨rfl, rfl, by simp⟩

/-- C3 amended witness: the failure characterization applied right after
the first enqueue, and the fresh-attempt characterization applied to the
stranded state it leaves. -/
theorem claim_C3_amended_witness :
    (Drain.stepD (Drain.runD false [Drain.Act.enq true])
        (Drain.Act.step Drain.PC.launchPending false)).processing = false ∧
    (Drain.stepD (Drain.runD false [Drain.Act.enq true,
        Drain.Act.step Drain.PC.launchPending false])
        (Drain.Act.enq true)).isInitializing = true :=
  ⟨(claim_C3_amended.1 _ (by decide) (by decide) (by decide) (by decide)).2.2.1,
   (claim_C3_amended.2 _ true (by decide) (by decide) (by decide) (by decide)).2.1⟩

/-- C5 counterexample: `raceSched` runs one task to completion; the loop
drains, initiates `cleanup(true)` (tdStart), completes the context close
(tdCtxClosed) and is parked on `browser.close()` when a new `enqueue`
arrives.  Its `processQueue` passes the guard (processing was reset in
the same `finally`), and since the context is already gone it claims
`isInitializing` and starts a second `chromium.launch` — a fresh
resource creation begins (launchStart count 2) while the teardown has
not completed (no tdDone, the browser close is still pending).  This
refutes the claim that teardown completes before a later enqueue's
processing triggers a fresh creation. -/
theorem claim_C5_counterexample :
    (Drain.runD false Drain.raceSched).events.count Ev.launchStart = 2 ∧
    (Drain.runD false Drain.raceSched).events.count Ev.tdStart = 1 ∧
    (Drain.runD false Drain.raceSched).events.count Ev.tdDone = 0 ∧
    Drain.PC.finCleanBrPending ∈ (Drain.runD false Drain.raceSched).frames ∧
    Drain.PC.launchPending ∈ (Drain.runD false Drain.raceSched).frames := by
  decide

/-- C5 amended: whenever the processing loop finds the queue empty after
finishing its tasks it immediately initiates full teardown (context
close first, then browser close; the browser process is closed too,
`cleanup(true)`), and the teardown completes once its close completions
are delivered; but nothing orders that completion before later work — a
later enqueue that arrives before the teardown completes begins
processing at once and can start a fresh `chromium.launch` concurrent
with the unfinished teardown. -/
theorem claim_C5_amended :
    (∀ (s : Drain.St) (ok : Bool), s.exited = false →
      Drain.PC.loopTop ∈ s.frames → s.queue = [] → s.context = true →
      (Drain.stepD s (Drain.Act.step Drain.PC.loopTop ok)).processing = false ∧
      (Drain.stepD s (Drain.Act.step Drain.PC.loopTop ok)).currentOp = none ∧
      (Drain.stepD s (Drain.Act.step Drain.PC.loopTop ok)).events =
          s.events ++ [Ev.tdStart] ∧
      Drain.PC.finCleanCtxPending ∈
          (Drain.stepD s (Drain.Act.step Drain.PC.loopTop ok)).frames ∧
      (Drain.stepD s (Drain.Act.step Drain.PC.loopTop ok)).context = true) ∧
    (∀ (s : Drain.St) (ok : Bool), s.exited = false →
      Drain.PC.finCleanCtxPending ∈ s.frames → s.browser = true →
      (Drain.stepD s (Drain.Act.step Drain.PC.finCleanCtxPending ok)).context = false ∧
      Drain.PC.finCleanBrPending ∈
          (Drain.stepD s (Drain.Act.step Drain.PC.finCleanCtxPending ok)).frames) ∧
    (∀ (s : Drain.St) (ok : Bool), s.exited = false →
      Drain.PC.finCleanBrPending ∈ s.frames →
      (Drain.stepD s (Drain.Act.step Drain.PC.finCleanBrPending ok)).browser = false ∧
      (Drain.stepD s (Drain.Act.step Drain.PC.finCleanBrPending ok)).events =
          s.events ++ [Ev.tdBrClosed, Ev.tdDone]) ∧
    ((Drain.runD false Drain.raceSched).events.count Ev.launchStart = 2 ∧
     (Drain.runD false Drain.raceSched).events.count Ev.tdDone = 0) := by
  refine ⟨?_, ?_, ?_, by decide, by decide⟩
  · intro s ok hex hmem hq hc
    simp only [Drain.stepD, hex, Bool.false_eq_true, if_false]
    rw [if_pos hmem]
    simp only [Drain.frameStep, hq]
    rw [if_pos (by simpa using hc)]
    refine ⟨?_, ?_, ?_, ?_, ?_⟩ <;> simp [hc]
  · intro s ok hex hmem hb
    simp only [Drain.stepD, hex, Bool.false_eq_true, if_false]
    rw [if_pos hmem]
    simp only [Drain.frameStep]
    rw [if_pos (by simpa using hb)]
    refine ⟨?_, ?_⟩ <;> simp
  · intro s ok hex hmem
    simp only [Drain.stepD, hex, Bool.false_eq_true, if_false]
    rw [if_pos hmem]
    simp only [Drain.frameStep]
    refine ⟨?_, ?_⟩ <;> simp

/-- C5 amended witness: the teardown-initiation characterization applied
to the drained state of the race schedule's prefix. -/
theorem claim_C5_amended_witness :
    (Drain.stepD
        (Drain.runD false [Drain.Act.enq true,
          Drain.Act.step Drain.PC.launchPending true,
          Drain.Act.step Drain.PC.loadPending true,
          Drain.Act.step Drain.PC.newCtxPending true,
          Drain.Act.step Drain.PC.loopTop true,
          Drain.Act.step (Drain.PC.opPending ⟨0, true⟩) true])
        (Drain.Act.step Drain.PC.loopTop true)).processing = false :=
  (claim_C5_amended.1 _ true (by decide) (by decide) (by decide) (by decide)).1

/-- C7 counterexample: `shutdownSched` enqueues four tasks; the first is
mid-flight when SIGTERM arrives.  A fifth enqueue is still accepted
after the signal (nothing stops intake), the flat 3 s grace sleep
elapses while the operation is still running, `cleanup(true)` tears the
resource down and `process.exit(0)` fires.  At exit no task was ever
settled and four tasks are still queued: the queued-but-unstarted tasks
were neither run nor rejected with a shutdown error, refuting the
claim. -/
theorem claim_C7_counterexample :
    (Drain.runD false Drain.shutdownSched).exited = true ∧
    (Drain.runD false Drain.shutdownSched).settledPairs = [] ∧
    (Drain.runD false Drain.shutdownSched).queue.length = 4 ∧
    (Drain.runD false Drain.shutdownSched).enqTasks.length = 5 ∧
    (Drain.runD false Drain.shutdownSched).browser = false ∧
    (Drain.runD false Drain.shutdownSched).context = false := by
  decide

/-- C7 amended: on SIGINT/SIGTERM the process does not stop accepting
new tasks — `enqueue` still appends during the grace wait; if a task is
processing, the drain revision sleeps a flat 3 s (not "up to": it never
re-checks completion) and the idle revision polls `processing` once a
second for at most 30 s; then `cleanup(true)` force-tears-down the
resource and `process.exit(0)` runs; queued-but-unstarted tasks are
neither run nor rejected with a shutdown error — once the process has
exited no step changes the state, so pending tasks are simply
abandoned. -/
theorem claim_C7_amended :
    (∀ (s : Drain.St) (a : Drain.Act), s.exited = true → Drain.stepD s a = s) ∧
    (∀ (s : Idle.St) (a : Idle.Act), s.exited = true → Idle.stepI s a = s) ∧
    (∀ s : Drain.St, s.exited = false → s.processing = true →
      Drain.stepD s Drain.Act.signal =
        { s with frames := Drain.PC.shutSleep :: s.frames }) ∧
    (∀ s : Idle.St, s.exited = false → s.processing = true →
      Idle.stepI s Idle.Act.signal =
        { s with frames := Idle.PC.shutPoll 30 :: s.frames }) ∧
    (∀ (s : Drain.St) (ok : Bool), s.exited = false →
      (Drain.stepD s (Drain.Act.enq ok)).enqTasks =
        s.enqTasks ++ [⟨s.nextId, ok⟩]) ∧
    (∀ (s : Idle.St) (ok : Bool), s.exited = false →
      (Idle.stepI s (Idle.Act.enq ok)).enqTasks =
        s.enqTasks ++ [⟨s.nextId, ok⟩]) ∧
    (∀ (s : Drain.St) (ok : Bool), s.exited = false →
      Drain.PC.shutCleanBrPending ∈ s.frames →
      (Drain.stepD s (Drain.Act.step Drain.PC.shutCleanBrPending ok)).browser = false ∧
      (Drain.stepD s (Drain.Act.step Drain.PC.shutCleanBrPending ok)).exited = true) ∧
    (∀ (s : Idle.St) (n : Nat), s.exited = false →
      Idle.PC.shutPoll n ∈ s.frames → s.processing = true → 0 < n →
      (Idle.stepI s (Idle.Act.step (Idle.PC.shutPoll n))).frames =
          Idle.PC.shutPoll (n - 1) :: s.frames.erase (Idle.PC.shutPoll n) ∧
      (Idle.stepI s (Idle.Act.step (Idle.PC.shutPoll n))).exited = false) := by
  refine ⟨?_, ?_, ?_, ?_, ?_, ?_, ?_, ?_⟩
  · intro s a hex
    simp [Drain.stepD, hex]
  · intro s a hex
    simp [Idle.stepI, hex]
  · intro s hex hp
    simp [Drain.stepD, hex, Drain.stepSig, hp]
  · intro s hex hp
    simp [Idle.stepI, hex, Idle.stepSig, hp]
  · intro s ok hex
    simp only [Drain.stepD, hex, Bool.false_eq_true, if_false]
    simp only [Drain.stepEnq, Drain.procEntry]
    by_cases hp : s.processing
    · rw [if_pos hp]
      simp [Drain.St.enqTasks, List.filterMap_append, Ev.enqT]
    · rw [if_neg hp, if_neg (by simp)]
      by_cases hbc : s.browser && s.context
      · rw [if_pos hbc]
        simp [Drain.St.enqTasks, List.filterMap_append, Ev.enqT]
      · rw [if_neg hbc]
        by_cases hi : s.isInitializing
        · rw [if_pos hi]
          simp [Drain.St.enqTasks, List.filterMap_append, Ev.enqT]
        · rw [if_neg hi]
          simp [Drain.St.enqTasks, List.filterMap_append, Ev.enqT]
  · intro s ok hex
    simp only [Idle.stepI, hex, Bool.false_eq_true, if_false]
    simp only [Idle.stepEnq, Idle.procEntry]
    by_cases hp : s.processing
    · rw [if_pos hp]
      simp [Idle.St.enqTasks, List.filterMap_append, Ev.enqT]
    · rw [if_neg hp]
      cases hq : s.queue ++ [(⟨s.nextId, ok⟩ : Task)] with
      | nil => simp at hq
      | cons t rest =>
        simp [Idle.St.enqTasks, List.filterMap_append, Ev.enqT]
  · intro s ok hex hmem
    simp only [Drain.stepD, hex, Bool.false_eq_true, if_false]
    rw [if_pos hmem]
    simp only [Drain.frameStep]
    refine ⟨?_, ?_⟩ <;> simp
  · intro s n hex hmem hp hn
    simp only [Idle.stepI, hex, Bool.false_eq_true, if_false]
    rw [if_pos hmem]
    simp only [Idle.frameStep]
    rw [if_pos (by simp [hp, hn])]
    exact ⟨rfl, rfl⟩

/-- C7 amended witness: the dead-process absorption applied at the
exited state of the shutdown schedule, and the still-accepting
characterization applied right after a signal. -/
theorem claim_C7_amended_witness :
    Drain.stepD (Drain.runD false Drain.shutdownSched) (Drain.Act.enq true) =
        Drain.runD false Drain.shutdownSched ∧
    (Drain.stepD (Drain.runD false [Drain.Act.enq true, Drain.Act.signal])
        (Drain.Act.enq true)).enqTasks =
      (Drain.runD false [Drain.Act.enq true, Drain.Act.signal]).enqTasks ++
        [⟨1, true⟩] :=
  ⟨claim_C7_amended.1 _ (Drain.Act.enq true) (by decide),
   claim_C7_amended.2.2.2.2.1 _ true (by decide)⟩

/-- C2 counterexample: two concurrent callers of the drain revision's
`BrowserManager.init` while uninitialized.  Caller A claims
`isInitializing` and launches; B parks in the poll loop.  A's launch
fails: A's cleanup runs, `isInitializing` is cleared, and A gets the
error.  B then wakes with the browser still null and the flag clear,
falls through the bottom of the poll loop, claims the flag itself and
performs a second full `chromium.launch`/`newContext` creation, ending
with the handle while A ended with the error — refuting both "exactly
one underlying launch()/newContext() creation pair" and "all N callers
end up with the same resulting handle or the same propagated error". -/
theorem claim_C2_counterexample :
    (InitD.runInit false [InitD.Act.call, InitD.Act.call,
        InitD.Act.step InitD.CPc.launchP false,
        InitD.Act.step InitD.CPc.poll true,
        InitD.Act.step InitD.CPc.launchP true,
        InitD.Act.step InitD.CPc.loadP true,
        InitD.Act.step InitD.CPc.newCtxP true]).events.count
        InitD.IEv.launchStart = 2 ∧
    InitD.CPc.doneErr ∈ (InitD.runInit false [InitD.Act.call, InitD.Act.call,
        InitD.Act.step InitD.CPc.launchP false,
        InitD.Act.step InitD.CPc.poll true,
        InitD.Act.step InitD.CPc.launchP true,
        InitD.Act.step InitD.CPc.loadP true,
        InitD.Act.step InitD.CPc.newCtxP true]).callers ∧
    InitD.CPc.doneRet true true ∈
      (InitD.runInit false [InitD.Act.call, InitD.Act.call,
        InitD.Act.step InitD.CPc.launchP false,
        InitD.Act.step InitD.CPc.poll true,
        InitD.Act.step InitD.CPc.launchP true,
        InitD.Act.step InitD.CPc.loadP true,
        InitD.Act.step InitD.CPc.newCtxP true]).callers := by
  decide

/-- C2 amended: with N concurrent callers of `init` from the
uninitialized state, creation attempts are mutually exclusive — the
`isInitializing` flag is held by exactly one caller inside the creation
section at any time — and when every external call succeeds at most one
`chromium.launch` is performed; every caller that returns normally has
observed the browser handle set.  But a creation failure propagates only
to the caller that performed the attempt: in the drain revision a
waiting caller never receives the error — its poll step either keeps
waiting, returns, or claims the flag and starts its own fresh creation
attempt (so under failures more than one creation pair can occur and
callers can end with different outcomes, as the counterexample run
shows); in the idle revision a waiting caller's poll step either keeps
waiting or returns the current — possibly null — handles, never an
error. -/
theorem claim_C2_amended :
    (∀ (store : Bool) (acts : List InitD.Act),
      (InitD.runInit store acts).callers.countP InitD.isCreating =
        (if (InitD.runInit store acts).isInitializing then 1 else 0)) ∧
    (∀ (store : Bool) (acts : List InitD.Act),
      (∀ a ∈ acts, InitD.okAct a = true) →
      (InitD.runInit store acts).events.count InitD.IEv.launchStart ≤ 1) ∧
    (∀ (s : InitD.St) (ok : Bool), ∃ c,
      (InitD.callerStep s InitD.CPc.poll ok).callers = c :: s.callers ∧
      c ≠ InitD.CPc.doneErr) ∧
    (∀ (store : Bool) (acts : List InitD.Act) (br ctx : Bool),
      InitD.CPc.doneRet br ctx ∈ (InitD.runInit store acts).callers →
      br = true) ∧
    (∀ (s : InitI.St) (ok : Bool),
      (InitI.callerStep s InitI.CPc.poll ok).callers =
        (if s.isInitializing then InitI.CPc.poll
         else InitI.CPc.doneRet s.browser s.context) :: s.callers) ∧
    ((InitD.runInit false [InitD.Act.call, InitD.Act.call,
        InitD.Act.step InitD.CPc.launchP false,
        InitD.Act.step InitD.CPc.poll true,
        InitD.Act.step InitD.CPc.launchP true,
        InitD.Act.step InitD.CPc.loadP true,
        InitD.Act.step InitD.CPc.newCtxP true]).events.count
        InitD.IEv.launchStart = 2) := by
  refine ⟨?_, ?_, ?_, ?_, ?_, by decide⟩
  · intro store acts
    exact (InitD.wf_runInit store acts).mutex
  · intro store acts hok
    exact (InitD.okwf_runInit store acts hok).1
  · intro s ok
    simp only [InitD.callerStep]
    by_cases hb : s.browser
    · rw [if_pos hb]
      exact ⟨_, rfl, by simp⟩
    · rw [if_neg hb]
      by_cases hi : s.isInitializing
      · rw [if_pos hi]
        exact ⟨_, rfl, by simp⟩
      · rw [if_neg hi]
        exact ⟨_, rfl, by simp⟩
  · intro store acts br ctx hm
    exact (InitD.wf_runInit store acts).ret br ctx hm
  · intro s ok
    simp only [InitI.callerStep]
    by_cases hi : s.isInitializing
    · rw [if_pos hi, if_pos hi]
    · rw [if_neg hi, if_neg hi]

/-- C2 amended witness: the single-creation bound applied to a
successful two-caller schedule, and the observed-browser fact applied to
its returned caller. -/
theorem claim_C2_amended_witness :
    (InitD.runInit false [InitD.Act.call, InitD.Act.call,
        InitD.Act.step InitD.CPc.launchP true,
        InitD.Act.step InitD.CPc.loadP true,
        InitD.Act.step InitD.CPc.newCtxP true,
        InitD.Act.step InitD.CPc.poll true]).events.count
        InitD.IEv.launchStart ≤ 1 ∧
    (true : Bool) = true :=
  ⟨claim_C2_amended.2.1 false [InitD.Act.call, InitD.Act.call,
      InitD.Act.step InitD.CPc.launchP true,
      InitD.Act.step InitD.CPc.loadP true,
      InitD.Act.step InitD.CPc.newCtxP true,
      InitD.Act.step InitD.CPc.poll true] (by decide),
   claim_C2_amended.2.2.2.1 false [InitD.Act.call,
      InitD.Act.step InitD.CPc.launchP true,
      InitD.Act.step InitD.CPc.loadP true,
      InitD.Act.step InitD.CPc.newCtxP true] true true (by decide)⟩

/-- C6: one firing of the idle revision's cleanup sweep: if the idle
time `now - lastActivity` exceeds the threshold, a context is open and
the queue is not processing, the sweep closes and clears the browsing
context and leaves the browser process untouched; if the queue is
processing, the sweep changes nothing at all; and the sweep's guard can
only pass while `requestQueue.processing` is false, so a sweep never
initiates eviction while a task is being processed. -/
theorem claim_C6_idle_sweep :
    (∀ s : Sweep.St, s.idleTimeout < s.now - s.lastActivity →
      s.context = true → s.processing = false →
      (Sweep.run s).context = false ∧ (Sweep.run s).browser = s.browser) ∧
    (∀ s : Sweep.St, s.processing = true → Sweep.run s = s) ∧
    (∀ s : Sweep.St, Sweep.fires s = true → s.processing = false) := by
  refine ⟨?_, ?_, ?_⟩
  · intro s hidle hc hp
    unfold Sweep.run Sweep.fires
    rw [if_pos (by simp [hidle, hc, hp])]
    exact ⟨rfl, rfl⟩
  · intro s hp
    unfold Sweep.run Sweep.fires
    rw [if_neg (by simp [hp])]
  · intro s hf
    unfold Sweep.fires at hf
    simp at hf
    exact hf.2

/-- C6 witness: the sweep applied to an idle state (10 min threshold
exceeded, context open, queue idle) and to a busy state. -/
theorem claim_C6_idle_sweep_witness :
    ((Sweep.run ⟨true, true, 0, 700000, 600000, false⟩).context = false ∧
     (Sweep.run ⟨true, true, 0, 700000, 600000, false⟩).browser = true) ∧
    Sweep.run ⟨true, true, 0, 700000, 600000, true⟩ =
      ⟨true, true, 0, 700000, 600000, true⟩ :=
  ⟨claim_C6_idle_sweep.1 ⟨true, true, 0, 700000, 600000, false⟩
      (by decide) (by decide) (by decide),
   claim_C6_idle_sweep.2.1 ⟨true, true, 0, 700000, 600000, true⟩ (by decide)⟩

/-- C8: persistence failures never escape: `loadSession` always returns
normally (`.ok`), yielding `none` — "no prior state" — when the
existence check throws, when the read throws, or when the file is
absent, and the blob when the read succeeds; `saveSessionNow` never
throws and returns `true` exactly when the guard held and both the
snapshot and the write succeeded, silently ignoring (not even logging)
closed/Target-class errors while logging other failures; and context
creation still proceeds when `loadSession` produced no prior state. -/
theorem claim_C8_persistence_swallowed :
    (∀ (pe : Except Persist.JsErr Bool) (rj : Except Persist.JsErr Persist.Blob),
      ∃ v, Persist.loadSession pe rj = Except.ok v) ∧
    (∀ (e : Persist.JsErr) (rj : Except Persist.JsErr Persist.Blob),
      Persist.loadSession (Except.error e) rj = Except.ok none) ∧
    (∀ e : Persist.JsErr,
      Persist.loadSession (Except.ok true) (Except.error e) = Except.ok none) ∧
    (∀ b : Persist.Blob,
      Persist.loadSession (Except.ok true) (Except.ok b) = Except.ok (some b)) ∧
    (∀ rj : Except Persist.JsErr Persist.Blob,
      Persist.loadSession (Except.ok false) rj = Except.ok none) ∧
    (∀ (c b conn : Bool) (ss : Except Persist.JsErr Persist.Blob)
        (wr : Except Persist.JsErr Unit),
      (Persist.saveSessionNow c b conn ss wr).1 =
        (c && b && conn && Persist.isOkE ss && Persist.isOkE wr)) ∧
    (∀ wr : Except Persist.JsErr Unit,
      Persist.saveSessionNow true true true
        (Except.error Persist.JsErr.closedMsg) wr = (false, false)) ∧
    (∀ wr : Except Persist.JsErr Unit,
      Persist.saveSessionNow true true true
        (Except.error Persist.JsErr.targetMsg) wr = (false, false)) ∧
    (∀ b : Persist.Blob,
      Persist.saveSessionNow true true true (Except.ok b)
        (Except.error Persist.JsErr.closedMsg) = (false, false)) ∧
    (∀ b : Persist.Blob,
      Persist.saveSessionNow true true true (Except.ok b)
        (Except.error Persist.JsErr.otherMsg) = (false, true)) ∧
    (∀ li : Bool,
      Persist.createContextRun li none (Except.ok ()) = Except.ok (true, li)) := by
  refine ⟨?_, ?_, ?_, ?_, ?_, ?_, ?_, ?_, ?_, ?_, ?_⟩
  · intro pe rj
    rcases pe with e | b
    · exact ⟨none, rfl⟩
    · cases b
      · exact ⟨none, rfl⟩
      · rcases rj with e | blob
        · exact ⟨none, rfl⟩
        · exact ⟨some blob, rfl⟩
  · intro e rj
    rfl
  · intro e
    rfl
  · intro b
    rfl
  · intro rj
    rfl
  · intro c b conn ss wr
    rcases ss with e | blob <;> rcases wr with e2 | u <;>
      cases c <;> cases b <;> cases conn <;> rfl
  · intro wr
    rfl
  · intro wr
    rfl
  · intro b
    rfl
  · intro b
    rfl
  · intro li
    rfl

/-- C9 counterexample: one uncontended successful run of the
idle-timeout revision's `init` from a fresh state with the session file
present: the persisted blob is installed as `storageState` of the new
context (`loadedSession = true`), the browser and context come up, and
yet the module-level `isLoggedIn` is left `false` — this revision never
sets it on load, refuting "in every revision, loading persisted state at
initialization leaves loggedIn = true". -/
theorem claim_C9_counterexample :
    (IdleInit.run ⟨false, false, false, true, false, false⟩).loadedSession = true ∧
    (IdleInit.run ⟨false, false, false, true, false, false⟩).isLoggedIn = false ∧
    (IdleInit.run ⟨false, false, false, true, false, false⟩).context = true ∧
    (IdleInit.run ⟨false, false, false, true, false, false⟩).browser = true := by
  decide

/-- C9 amended: in the drain revision, `createContext` does set the
cached `isLoggedIn` to true optimistically whenever a persisted blob was
loaded; the idle revision's `init` instead passes the blob to the new
context's `storageState` without touching the flag — its `isLoggedIn`
is left exactly as it was (false at startup) until a task sets it. -/
theorem claim_C9_amended :
    (∀ (li : Bool) (b : Persist.Blob),
      Persist.createContextRun li (some b) (Except.ok ()) =
        Except.ok (true, true)) ∧
    (∀ s : IdleInit.St, (IdleInit.run s).isLoggedIn = s.isLoggedIn) ∧
    (∀ li store : Bool,
      (IdleInit.run ⟨false, false, li, store, false, false⟩).loadedSession =
        store) := by
  refine ⟨?_, ?_, ?_⟩
  · intro li b
    rfl
  · intro s
    obtain ⟨br, c, li, sh, t, ls⟩ := s
    cases br <;> cases c <;> rfl
  · intro li store
    cases li <;> cases store <;> decide

end WeiboProxy
